import Mathlib

/-!
A shallow embedding of the pixel-puppy JavaScript client library.

Strings are modelled as `List Char`; JavaScript numbers that matter to the
claims are modelled as `JNum` (an integer or the NaN value); fallible
operations return `Except JsError`.  The mutable global configuration read
by `resolveUrl` is modelled as an explicit read-only environment `Env`,
and the configuration store itself (`configure` / `getConfig` /
`resetConfig`) as explicit state passing over a small heap, so that the
object-identity facts about `getConfig` snapshots are expressible.
-/

abbrev Str := List Char

def str (s : String) : Str := s.toList

/-! ## Percent encoding (the `URLSearchParams` serialization model)

`URLSearchParams.toString()` serializes names and values with
`application/x-www-form-urlencoded` encoding: ASCII alphanumerics and
`*`, `-`, `.`, `_` are kept, a space becomes `+`, and every other
character is replaced by `%XX` (uppercase hex) groups, one per UTF-8 byte.
-/

def utf8EncodeChar (c : Char) : List Nat :=
  if c.toNat < 0x80 then [c.toNat]
  else if c.toNat < 0x800 then [0xC0 + c.toNat / 0x40, 0x80 + c.toNat % 0x40]
  else if c.toNat < 0x10000 then
    [0xE0 + c.toNat / 0x1000, 0x80 + c.toNat / 0x40 % 0x40, 0x80 + c.toNat % 0x40]
  else
    [0xF0 + c.toNat / 0x40000, 0x80 + c.toNat / 0x1000 % 0x40,
      0x80 + c.toNat / 0x40 % 0x40, 0x80 + c.toNat % 0x40]

def hexDigitChar (n : Nat) : Char :=
  if n < 10 then Char.ofNat (48 + n) else Char.ofNat (55 + n)

def isFormSafe (c : Char) : Bool :=
  c.isAlphanum || c = '*' || c = '-' || c = '.' || c = '_'

def encodeFormChar (c : Char) : Str :=
  if c = ' ' then ['+']
  else if isFormSafe c then [c]
  else (utf8EncodeChar c).flatMap
    (fun b => ['%', hexDigitChar (b / 16), hexDigitChar (b % 16)])

def encodeForm (s : Str) : Str := s.flatMap encodeFormChar

/-! ## Standard query-parameter decoding

The inverse direction used by the round-trip property: `+` is a space,
`%XX` with two hex digits is one byte, any other character stands for its
own UTF-8 bytes; the resulting byte stream is UTF-8 decoded.
-/

def hexVal? (c : Char) : Option Nat :=
  if 48 ≤ c.toNat ∧ c.toNat ≤ 57 then some (c.toNat - 48)
  else if 65 ≤ c.toNat ∧ c.toNat ≤ 70 then some (c.toNat - 55)
  else if 97 ≤ c.toNat ∧ c.toNat ≤ 102 then some (c.toNat - 87)
  else none

def percentDecodeBytes : Str → List Nat
  | [] => []
  | [c] => if c = '+' then [32] else if c = '%' then [37] else utf8EncodeChar c
  | [c, c1] =>
    if c = '+' then 32 :: percentDecodeBytes [c1]
    else if c = '%' then 37 :: percentDecodeBytes [c1]
    else utf8EncodeChar c ++ percentDecodeBytes [c1]
  | c :: c1 :: c2 :: rest =>
    if c = '+' then 32 :: percentDecodeBytes (c1 :: c2 :: rest)
    else if c = '%' then
      match hexVal? c1, hexVal? c2 with
      | some h, some l => (16 * h + l) :: percentDecodeBytes rest
      | _, _ => 37 :: percentDecodeBytes (c1 :: c2 :: rest)
    else utf8EncodeChar c ++ percentDecodeBytes (c1 :: c2 :: rest)

def utf8Decode : List Nat → Str
  | [] => []
  | [b] => if b < 0x80 then [Char.ofNat b] else [Char.ofNat 0xFFFD]
  | [b, b2] =>
    if b < 0x80 then Char.ofNat b :: utf8Decode [b2]
    else if b < 0xC0 then Char.ofNat 0xFFFD :: utf8Decode [b2]
    else if b < 0xE0 then [Char.ofNat ((b - 0xC0) * 0x40 + (b2 - 0x80))]
    else [Char.ofNat 0xFFFD]
  | [b, b2, b3] =>
    if b < 0x80 then Char.ofNat b :: utf8Decode [b2, b3]
    else if b < 0xC0 then Char.ofNat 0xFFFD :: utf8Decode [b2, b3]
    else if b < 0xE0 then
      Char.ofNat ((b - 0xC0) * 0x40 + (b2 - 0x80)) :: utf8Decode [b3]
    else if b < 0xF0 then
      [Char.ofNat ((b - 0xE0) * 0x1000 + (b2 - 0x80) * 0x40 + (b3 - 0x80))]
    else [Char.ofNat 0xFFFD]
  | b :: b2 :: b3 :: b4 :: rest =>
    if b < 0x80 then Char.ofNat b :: utf8Decode (b2 :: b3 :: b4 :: rest)
    else if b < 0xC0 then Char.ofNat 0xFFFD :: utf8Decode (b2 :: b3 :: b4 :: rest)
    else if b < 0xE0 then
      Char.ofNat ((b - 0xC0) * 0x40 + (b2 - 0x80)) :: utf8Decode (b3 :: b4 :: rest)
    else if b < 0xF0 then
      Char.ofNat ((b - 0xE0) * 0x1000 + (b2 - 0x80) * 0x40 + (b3 - 0x80)) ::
        utf8Decode (b4 :: rest)
    else
      Char.ofNat ((b - 0xF0) * 0x40000 + (b2 - 0x80) * 0x1000 +
        (b3 - 0x80) * 0x40 + (b4 - 0x80)) :: utf8Decode rest

def formDecode (s : Str) : Str := utf8Decode (percentDecodeBytes s)

/-! ## JavaScript value model -/

/-- A JavaScript number as far as the claims need it: an integer or NaN. -/
inductive JNum where
  | nan : JNum
  | int : Int → JNum
deriving DecidableEq

/-- JavaScript truthiness of a possibly-missing number:
`undefined`, `0` and `NaN` are falsy. -/
def jnumTruthy : Option JNum → Bool
  | some (JNum.int n) => n != 0
  | _ => false

/-- `Number.isNaN` on a possibly-missing number (no coercion). -/
def jsIsNaN : Option JNum → Bool
  | some JNum.nan => true
  | _ => false

/-- `width <= 0` under JavaScript comparison; comparisons with NaN are
false, and this is only reached when `width` is truthy. -/
def jnumLe0 : Option JNum → Bool
  | some (JNum.int n) => n ≤ 0
  | _ => false

/-- A thrown JavaScript `Error`, identified by its message. -/
inductive JsError where
  | jsError : Str → JsError
deriving DecidableEq

/-! ## Configuration environment (read side)

`resolveUrl` reads the globally configured `baseUrl` via `getConfig()` and
probes the browser for `window.location.origin`. Both reads are modelled
by an explicit environment. -/

structure Env where
  configBaseUrl : Option Str
  browserOrigin : Option Str
deriving DecidableEq

/-! ## url-utils.ts -/

def isRelativeUrl (url : Str) : Bool :=
  if (str ("//")).isPrefixOf url then false
  else if (str ("http://")).isPrefixOf url || (str ("https://")).isPrefixOf url then
    false
  else if (str ("data:")).isPrefixOf url then false
  else true

/-- `getBrowserBaseUrl`: returns `window.location.origin` when the global
exists and the origin is truthy (a non-empty string). -/
def getBrowserBaseUrl (env : Env) : Option Str :=
  match env.browserOrigin with
  | some o => if o = [] then none else some o
  | none => none

/-- The JavaScript nullish-coalescing operator on possibly-missing
strings: only `undefined`/`null` move to the right operand. -/
def jsCoalesce (a b : Option Str) : Option Str :=
  match a with
  | some x => some x
  | none => b

/-- `baseUrl ?? config.baseUrl ?? getBrowserBaseUrl()` in `resolveUrl`. -/
def effectiveBase (env : Env) (baseUrl : Option Str) : Option Str :=
  jsCoalesce baseUrl (jsCoalesce env.configBaseUrl (getBrowserBaseUrl env))

def cannotResolveMsg (url : Str) : Str :=
  str ("Cannot resolve relative URL \"") ++ url ++
    str ("\". Please configure a baseUrl using configure(\x7b baseUrl: \x27...\x27 \x7d) or pass baseUrl in options. In browser environments, this is auto-detected from window.location.origin.")

/-- `effectiveBaseUrl.replace(/\/$/, '')`: strips one trailing slash. -/
def stripTrailingSlash (b : Str) : Str :=
  if b.getLast? = some '/' then b.dropLast else b

def resolveUrl (env : Env) (url : Str) (baseUrl : Option Str) :
    Except JsError Str :=
  if isRelativeUrl url = false then Except.ok url
  else
    match effectiveBase env baseUrl with
    | none => Except.error (JsError.jsError (cannotResolveMsg url))
    | some b =>
      if b = [] then Except.error (JsError.jsError (cannotResolveMsg url))
      else
        Except.ok (stripTrailingSlash b ++
          (if url.head? = some '/' then url else '/' :: url))

/-! ## urls.ts -/

/-- ASCII lower-casing; the only strings it is applied to here are the
already-validated format names. -/
def toLowerChar (c : Char) : Char :=
  if 65 ≤ c.toNat ∧ c.toNat ≤ 90 then Char.ofNat (c.toNat + 32) else c

def toLowerStr (s : Str) : Str := s.map toLowerChar

/-- Decimal digits of a natural number (fuel-based so that it stays
kernel-computable; the fuel is always sufficient). -/
def natDigitsAux : Nat → Nat → Str
  | 0, _ => []
  | fuel + 1, n =>
    if n < 10 then [Char.ofNat (48 + n)]
    else natDigitsAux fuel (n / 10) ++ [Char.ofNat (48 + n % 10)]

def natToStr (n : Nat) : Str := natDigitsAux (n + 1) n

/-- `Number.prototype.toString` on an integral number. -/
def intToStr (i : Int) : Str :=
  if i < 0 then '-' :: natToStr i.natAbs else natToStr i.natAbs

def jnumToStr : JNum → Str
  | JNum.nan => str ("NaN")
  | JNum.int n => intToStr n

/-- `options.format || 'webp'`: the empty string is falsy. -/
def jsOrStr (a : Option Str) (d : Str) : Str :=
  match a with
  | some s => if s = [] then d else s
  | none => d

structure TransformationOptions where
  baseUrl : Option Str
  format : Option Str
  width : Option JNum

def pixelPuppyEndpoint : Str := str ("https://pixelpuppy.io/api/image")

/-- The `width` query parameter: appended only when `width` is truthy. -/
def widthPart : Option JNum → Str
  | some (JNum.int n) =>
    if n ≠ 0 then str ("&width=") ++ encodeForm (intToStr n) else []
  | _ => []

/-- The final URL string assembled by `buildImageUrl`:
`URLSearchParams` appends `project`, `url`, `format` and (optionally)
`width` in that order. -/
def builtUrl (projectSlug resolvedUrl : Str) (fopt : Option Str)
    (wopt : Option JNum) : Str :=
  pixelPuppyEndpoint ++ str ("?project=") ++ encodeForm projectSlug ++
    str ("&url=") ++ encodeForm resolvedUrl ++ str ("&format=") ++
    encodeForm (toLowerStr (jsOrStr fopt (str ("webp")))) ++ widthPart wopt

/-- The part of `buildImageUrl` after URL resolution: format and width
validation, then query-string construction. -/
def buildImageUrlResolved (projectSlug resolvedUrl : Str) (fopt : Option Str)
    (wopt : Option JNum) : Except JsError Str :=
  if jsOrStr fopt (str ("webp")) ≠ str ("webp") ∧
      jsOrStr fopt (str ("webp")) ≠ str ("png") then
    Except.error (JsError.jsError
      (str ("Invalid format. Supported formats are webp and png.")))
  else if jsIsNaN wopt then
    Except.error (JsError.jsError (str ("Width must be a number.")))
  else if jnumTruthy wopt && jnumLe0 wopt then
    Except.error (JsError.jsError (str ("Width must be a positive number.")))
  else Except.ok (builtUrl projectSlug resolvedUrl fopt wopt)

def buildImageUrl (env : Env) (projectSlug originalImageUrl : Str)
    (options : TransformationOptions) : Except JsError Str :=
  if projectSlug = [] then
    Except.error (JsError.jsError (str ("projectSlug is required.")))
  else if originalImageUrl = [] then
    Except.error (JsError.jsError (str ("originalImageUrl is required.")))
  else
    match resolveUrl env originalImageUrl options.baseUrl with
    | Except.error e => Except.error e
    | Except.ok resolvedUrl =>
      buildImageUrlResolved projectSlug resolvedUrl options.format options.width

/-! ## responsive.ts -/

def defaultDeviceBreakpoints : List Int :=
  [480, 640, 750, 828, 1080, 1200, 1920, 2048, 3840]

def defaultImageBreakpoints : List Int := [16, 32, 48, 64, 96, 128, 256, 384]

structure ResponsiveImageOptions where
  baseUrl : Option Str
  deviceBreakpoints : Option (List Int)
  format : Option Str
  imageBreakpoints : Option (List Int)
  responsive : Option Bool
  sizes : Option Str
  width : Option JNum

structure ResponsiveImageAttributes where
  sizes : Option Str
  src : Str
  srcSet : Str
  width : Option JNum
deriving DecidableEq

/-- Scanner equivalent of `sizes.match(/(\d+)vw/g)` followed by
`parseInt` on each match: the value of every maximal digit run that is
immediately followed by the two characters `vw`. -/
def vwAux : Option Nat → Str → List Nat
  | _, [] => []
  | _, [_] => []
  | acc, c :: c2 :: rest =>
    if c.isDigit then
      vwAux (some (acc.getD 0 * 10 + (c.toNat - 48))) (c2 :: rest)
    else
      match acc, c, c2 with
      | some v, 'v', 'w' => v :: vwAux none rest
      | _, _, _ => vwAux none (c2 :: rest)

def vwTokens (s : Str) : List Nat := vwAux none s

/-- `parseSmallestVw` returns the minimum matched vw percentage (the
source divides by 100 when using it; the division is kept exact here). -/
def parseSmallestVw (sizes : Str) : Option Nat :=
  match vwTokens sizes with
  | [] => none
  | t :: ts => some (ts.foldl Nat.min t)

/-- First-occurrence deduplication, the order produced by
`Array.from(new Set(xs))`. -/
def dedupFirstAux (seen : List Int) : List Int → List Int
  | [] => []
  | x :: xs =>
    if x ∈ seen then dedupFirstAux seen xs
    else x :: dedupFirstAux (x :: seen) xs

def dedupFirst (l : List Int) : List Int := dedupFirstAux [] l

/-- `.sort((a, b) => a - b)`: ascending numeric sort. -/
def sortInts (l : List Int) : List Int := List.insertionSort (· ≤ ·) l

/-- One srcSet candidate: `` `${url} ${w}w` ``. -/
def srcSetEntry (env : Env) (project src : Str) (baseUrl format : Option Str)
    (w : Int) : Except JsError Str :=
  match buildImageUrl env project src ⟨baseUrl, format, some (JNum.int w)⟩ with
  | Except.error e => Except.error e
  | Except.ok url => Except.ok (url ++ [' '] ++ intToStr w ++ ['w'])

/-- The `.map` that builds all srcSet entries; the first failing URL
build aborts the whole thing, matching exception propagation. -/
def mapEntries (env : Env) (project src : Str) (baseUrl format : Option Str) :
    List Int → Except JsError (List Str)
  | [] => Except.ok []
  | w :: ws =>
    match srcSetEntry env project src baseUrl format w with
    | Except.error e => Except.error e
    | Except.ok s =>
      match mapEntries env project src baseUrl format ws with
      | Except.error e => Except.error e
      | Except.ok rest => Except.ok (s :: rest)

/-- `entries.join(', ')`. -/
def joinCommaSpace (es : List Str) : Str :=
  (List.intersperse (str (", ")) es).flatten

/-- `if (sizes)`: a provided, non-empty sizes string. -/
def sizesTruthy : Option Str → Bool
  | some s => s != []
  | none => false

/-- `filteredBreakpoints[0] || uniqueBreakpoints[0]`: `undefined` and `0`
are falsy. -/
def jsOrNum (a b : Option Int) : Option Int :=
  match a with
  | some v => if v = 0 then b else some v
  | none => b

/-! The sizes-based filter threshold `480 * smallestVw` is computed by
the program in IEEE-754 binary64 ("double") arithmetic, which matters at
integer boundaries: `480 * (415 / 100)` evaluates to slightly more than
`1992`, so a candidate of exactly `1992` is dropped even though the
exact value of the threshold is `1992`.  The rounding of a positive
rational to the nearest double (round half to even) is modelled exactly
below, with the resulting double represented by its exact rational
value; the model assumes the normal range (no overflow to infinity and
no subnormals), which holds for every vw percentage of fewer than about
three hundred digits. -/

/-- Fuel-based floor of the base-2 logarithm (the fuel is always
sufficient since each step halves the argument). -/
def log2fuel : Nat → Nat → Nat
  | 0, _ => 0
  | fuel + 1, n => if 2 ≤ n then log2fuel fuel (n / 2) + 1 else 0

/-- Number of binary digits of a positive number (0 for 0). -/
def bitlen (n : Nat) : Nat := if n = 0 then 0 else log2fuel n n + 1

/-- Division rounded half to even. -/
def rndNat (num den : Nat) : Nat :=
  let q := num / den
  let r := num % den
  if 2 * r < den then q
  else if den < 2 * r then q + 1
  else if q % 2 = 0 then q else q + 1

/-- `floor (log2 (a / b))` for positive `a`, `b`. -/
def ratLog2 (a b : Nat) : Int :=
  (bitlen a : Int) - (bitlen b : Int) +
    (if b * 2 ^ bitlen a ≤ a * 2 ^ bitlen b then 0 else -1)

/-- `n * 2 ^ e` as a rational. -/
def dyadic (n : Nat) (e : Int) : Rat :=
  if 0 ≤ e then (n : Rat) * (2 : Rat) ^ e.toNat
  else (n : Rat) / (2 : Rat) ^ (-e).toNat

/-- An exactly-represented double: the value `n * 2 ^ e`. -/
structure Dy where
  n : Nat
  e : Int
deriving DecidableEq

/-- The rational value of an exactly-represented double. -/
def Dy.toRat (x : Dy) : Rat := dyadic x.n x.e

/-- The binary64 double nearest to `a / b` (positive, normal range): the
53-bit significand is `a/b / 2^(e-52)` rounded half to even, where
`2^e ≤ a/b < 2^(e+1)`. -/
def roundFloatPos (a b : Nat) : Dy :=
  let e := ratLog2 a b
  let num := a * 2 ^ (52 - e).toNat
  let den := b * 2 ^ (e - 52).toNat
  ⟨rndNat num den, e - 52⟩

/-- The binary64 double nearest to a natural number (this is also what
`parseInt` returns on the matched digits). -/
def roundFloatNat (m : Nat) : Dy :=
  if m = 0 then ⟨0, 0⟩ else roundFloatPos m 1

/-- `x / 100` in binary64 arithmetic. -/
def jsDiv100 (x : Dy) : Dy :=
  if x.n = 0 then ⟨0, 0⟩
  else roundFloatPos (x.n * 2 ^ x.e.toNat) (100 * 2 ^ (-x.e).toNat)

/-- `480 * x` in binary64 arithmetic. -/
def jsMul480 (x : Dy) : Dy :=
  if x.n = 0 then ⟨0, 0⟩
  else roundFloatPos (480 * x.n * 2 ^ x.e.toNat) (2 ^ (-x.e).toNat)

/-- The threshold `minDeviceWidth * smallestVw` exactly as the program
computes it in JavaScript doubles: `parseInt` rounds the matched integer
to a double, the division by 100 rounds, and the multiplication by 480
rounds again. -/
def jsMinImageWidth (m : Nat) : Dy :=
  jsMul480 (jsDiv100 (roundFloatNat m))

/-- Comparison of two nonnegative doubles (exact on their values). -/
def dyLe (x y : Dy) : Bool :=
  x.n * 2 ^ (x.e - y.e).toNat ≤ y.n * 2 ^ (y.e - x.e).toNat

/-- The sizes-based filter `bp >= minImageWidth`: the threshold is
nonnegative, so a negative candidate never passes; a nonnegative one is
converted to a double and compared. -/
def survivesVw (m : Nat) (bp : Int) : Bool :=
  if bp < 0 then false
  else dyLe (jsMinImageWidth m) (roundFloatNat bp.toNat)

/-- `width ? [width, width * 2] : []`. -/
def widthExtraOf : Option JNum → List Int
  | some (JNum.int n) => if n ≠ 0 then [n, n * 2] else []
  | _ => []

/-- `[...deviceBreakpoints, ...imageBreakpoints, ...(width ? [width, width*2] : [])]`. -/
def candidateBreakpoints (dev img : List Int) (width : Option JNum) : List Int :=
  dev ++ img ++ widthExtraOf width

/-- `Array.from(new Set(allBreakpoints)).sort((a, b) => a - b)`. -/
def uniqueBreakpointsOf (dev img : List Int) (width : Option JNum) : List Int :=
  sortInts (dedupFirst (candidateBreakpoints dev img width))

/-- The sizes-strategy filter: drops breakpoints below
`480 * smallestVw` when a vw token exists, otherwise keeps everything. -/
def filteredBreakpointsOf (sz : Str) (ub : List Int) : List Int :=
  match parseSmallestVw sz with
  | none => ub
  | some m => ub.filter (fun bp => survivesVw m bp)

/-- The URL built for one candidate width (its value on success). -/
def urlOf (env : Env) (project src : Str) (baseUrl format : Option Str)
    (w : Int) : Str :=
  match buildImageUrl env project src ⟨baseUrl, format, some (JNum.int w)⟩ with
  | Except.ok u => u
  | Except.error _ => []

def getResponsiveImageAttributes (env : Env) (project src : Str)
    (options : ResponsiveImageOptions) : Except JsError ResponsiveImageAttributes :=
  let baseUrl := options.baseUrl
  let width := options.width
  let format := options.format
  let responsive := options.responsive.getD true
  let deviceBreakpoints := options.deviceBreakpoints.getD defaultDeviceBreakpoints
  let imageBreakpoints := options.imageBreakpoints.getD defaultImageBreakpoints
  if responsive = false then
    match buildImageUrl env project src ⟨baseUrl, format, width⟩ with
    | Except.error e => Except.error e
    | Except.ok singleUrl => Except.ok ⟨none, singleUrl, [], none⟩
  else
    let uniqueBreakpoints := uniqueBreakpointsOf deviceBreakpoints imageBreakpoints width
    if sizesTruthy options.sizes then
      let sz := options.sizes.getD []
      let filteredBreakpoints := filteredBreakpointsOf sz uniqueBreakpoints
      match mapEntries env project src baseUrl format filteredBreakpoints with
      | Except.error e => Except.error e
      | Except.ok entries =>
        let fallbackWidth := jsOrNum filteredBreakpoints.head? uniqueBreakpoints.head?
        match buildImageUrl env project src
            ⟨baseUrl, format, fallbackWidth.map JNum.int⟩ with
        | Except.error e => Except.error e
        | Except.ok fallbackSrc =>
          Except.ok ⟨some sz, fallbackSrc, joinCommaSpace entries, none⟩
    else if jnumTruthy width then
      match mapEntries env project src baseUrl format uniqueBreakpoints with
      | Except.error e => Except.error e
      | Except.ok entries =>
        match buildImageUrl env project src ⟨baseUrl, format, width⟩ with
        | Except.error e => Except.error e
        | Except.ok fallbackSrc =>
          Except.ok ⟨some (str ("(min-width: 1024px) 1024px, 100vw")),
            fallbackSrc, joinCommaSpace entries, width⟩
    else
      let sortedBreakpoints := sortInts deviceBreakpoints
      match mapEntries env project src baseUrl format sortedBreakpoints with
      | Except.error e => Except.error e
      | Except.ok entries =>
        match buildImageUrl env project src
            ⟨baseUrl, format, sortedBreakpoints.head?.map JNum.int⟩ with
        | Except.error e => Except.error e
        | Except.ok fallbackSrc =>
          Except.ok ⟨some (str ("100vw")), fallbackSrc, joinCommaSpace entries, none⟩

/-! ## config.ts, with a small heap for snapshot identity

`getConfig` returns `Object.freeze({ ...globalConfig })`: a freshly
allocated, frozen copy. The heap is a list of allocated objects; a
reference is an index into it. -/

structure PixelPuppyConfig where
  baseUrl : Option Str
deriving DecidableEq

structure HeapObj where
  value : PixelPuppyConfig
  frozen : Bool
deriving DecidableEq

structure ConfigState where
  objects : List HeapObj
  globalConfig : PixelPuppyConfig
deriving DecidableEq

/-- `configure(config)`: replaces the whole stored configuration with a
copy of the argument. -/
def configure (s : ConfigState) (c : PixelPuppyConfig) : ConfigState :=
  ⟨s.objects, c⟩

/-- `getConfig()`: allocates a frozen copy of the stored configuration
and returns a reference to it. -/
def getConfig (s : ConfigState) : ConfigState × Nat :=
  (⟨s.objects ++ [⟨s.globalConfig, true⟩], s.globalConfig⟩, s.objects.length)

/-- `resetConfig()`: restores the empty configuration. -/
def resetConfig (s : ConfigState) : ConfigState :=
  ⟨s.objects, ⟨none⟩⟩

/-- Reading a snapshot object through its reference. -/
def readRef (s : ConfigState) (r : Nat) : Option PixelPuppyConfig :=
  (s.objects[r]?).map (fun o => o.value)

/-- Attempting to mutate a snapshot object: writes to a frozen object are
discarded (sloppy-mode `Object.freeze` semantics). -/
def writeRef (s : ConfigState) (r : Nat) (v : PixelPuppyConfig) : ConfigState :=
  match s.objects[r]? with
  | some o => if o.frozen then s else ⟨s.objects.set r ⟨v, o.frozen⟩, s.globalConfig⟩
  | none => s

/-- Number of positions of `l` at which the pattern `p` occurs. -/
def countSub (p : Str) : Str → Nat
  | [] => 0
  | c :: t => (if p.isPrefixOf (c :: t) then 1 else 0) + countSub p t

/-! ## Lemmas about deduplication and sorting -/

theorem mem_dedupFirstAux (seen l : List Int) (x : Int) :
    x ∈ dedupFirstAux seen l ↔ x ∈ l ∧ x ∉ seen := by
  induction l generalizing seen with
  | nil => simp [dedupFirstAux]
  | cons a t ih =>
    by_cases ha : a ∈ seen
    · rw [dedupFirstAux, if_pos ha, ih]
      simp only [List.mem_cons]
      by_cases hxa : x = a
      · subst hxa
        simp [ha]
      · simp [hxa]
    · rw [dedupFirstAux, if_neg ha]
      simp only [List.mem_cons, ih, List.mem_cons]
      by_cases hxa : x = a
      · subst hxa
        simp [ha]
      · simp [hxa]

theorem nodup_dedupFirstAux (seen l : List Int) :
    (dedupFirstAux seen l).Nodup := by
  induction l generalizing seen with
  | nil => simp [dedupFirstAux]
  | cons a t ih =>
    by_cases ha : a ∈ seen
    · rw [dedupFirstAux, if_pos ha]
      exact ih seen
    · rw [dedupFirstAux, if_neg ha]
      refine List.nodup_cons.mpr ⟨?_, ih (a :: seen)⟩
      intro hmem
      exact ((mem_dedupFirstAux _ _ _).mp hmem).2 (by simp)

theorem mem_dedupFirst (l : List Int) (x : Int) : x ∈ dedupFirst l ↔ x ∈ l := by
  rw [dedupFirst, mem_dedupFirstAux]
  simp

theorem nodup_dedupFirst (l : List Int) : (dedupFirst l).Nodup :=
  nodup_dedupFirstAux [] l

theorem sortInts_sorted (l : List Int) : (sortInts l).Sorted (· ≤ ·) :=
  List.sorted_insertionSort _ l

theorem sortInts_perm (l : List Int) : List.Perm (sortInts l) l :=
  List.perm_insertionSort _ l

theorem mem_sortInts (l : List Int) (x : Int) : x ∈ sortInts l ↔ x ∈ l :=
  (sortInts_perm l).mem_iff

theorem sortInts_nodup (l : List Int) (h : l.Nodup) : (sortInts l).Nodup :=
  ((sortInts_perm l).nodup_iff).mpr h

/-- The deduplicated, sorted breakpoint list is strictly ascending. -/
theorem sortDedup_strict (l : List Int) :
    (sortInts (dedupFirst l)).Pairwise (· < ·) := by
  have hs : (sortInts (dedupFirst l)).Pairwise (· ≤ ·) := sortInts_sorted _
  have hn : (sortInts (dedupFirst l)).Pairwise (fun a b => a ≠ b) :=
    sortInts_nodup _ (nodup_dedupFirst l)
  exact (hs.and hn).imp (fun h => lt_of_le_of_ne h.1 h.2)

theorem mem_sortDedup (l : List Int) (x : Int) :
    x ∈ sortInts (dedupFirst l) ↔ x ∈ l := by
  rw [mem_sortInts, mem_dedupFirst]

/-! ## Counting substring occurrences -/

theorem countSub_le_cons (p : Str) (c : Char) (t : Str) :
    countSub p t ≤ countSub p (c :: t) := by
  simp only [countSub]
  omega

/-- An occurrence of a non-trivial pattern makes the count positive. -/
theorem countSub_pos_of_infix (p l : Str) (hne : p ≠ []) (h : p <:+: l) :
    1 ≤ countSub p l := by
  obtain ⟨s, t, rfl⟩ := h
  induction s with
  | nil =>
    match p, hne with
    | c :: p', _ =>
      rw [List.nil_append]
      simp only [countSub, List.append_eq]
      split
      · omega
      · rename_i hfalse
        exact absurd (List.isPrefixOf_iff_prefix.mpr ⟨t, rfl⟩) hfalse
  | cons a s' ih =>
    calc 1 ≤ countSub p (s' ++ p ++ t) := ih
    _ ≤ countSub p (a :: (s' ++ p ++ t)) := countSub_le_cons _ _ _
    _ = countSub p (a :: s' ++ p ++ t) := by simp

/-- Key stepping lemma: a pattern that contains `'='` but not `'&'`
matches nowhere inside or at the boundary of an `'='`-free block that is
followed by nothing or by an `'&'`. -/
theorem countSub_skip_block (p A rest : Str) (hp : '=' ∈ p) (hpa : '&' ∉ p)
    (hA : '=' ∉ A) (hr : rest = [] ∨ ∃ t, rest = '&' :: t) :
    countSub p (A ++ rest) = countSub p rest := by
  induction A with
  | nil => rw [List.nil_append]
  | cons a A' ih =>
    have hA' : '=' ∉ A' := fun h => hA (List.mem_cons_of_mem _ h)
    rw [List.cons_append]
    simp only [countSub]
    rw [ih hA']
    have hnp : ¬ p.isPrefixOf (a :: (A' ++ rest)) = true := by
      intro hpre
      have hpre' : p <+: a :: (A' ++ rest) := List.isPrefixOf_iff_prefix.mp hpre
      have heq : p = (a :: (A' ++ rest)).take p.length :=
        List.prefix_iff_eq_take.mp hpre'
      rw [show a :: (A' ++ rest) = (a :: A') ++ rest from rfl,
        List.take_append_eq_append_take] at heq
      by_cases hlen : p.length ≤ (a :: A').length
      · have hz : p.length - (a :: A').length = 0 := Nat.sub_eq_zero_of_le hlen
        rw [hz, List.take_zero, List.append_nil] at heq
        have hsub : '=' ∈ (a :: A').take p.length := heq ▸ hp
        have : '=' ∈ a :: A' := List.take_subset _ _ hsub
        rcases List.mem_cons.mp this with h | h
        · exact hA (h ▸ List.mem_cons_self _ _)
        · exact hA (List.mem_cons_of_mem _ h)
      · push_neg at hlen
        have htk : (a :: A').take p.length = a :: A' :=
          List.take_of_length_le (Nat.le_of_lt hlen)
        rw [htk] at heq
        have hpos : 1 ≤ p.length - (a :: A').length := by omega
        rcases hr with rfl | ⟨t, rfl⟩
        · rw [List.take_nil, List.append_nil] at heq
          have : '=' ∈ a :: A' := heq ▸ hp
          rcases List.mem_cons.mp this with h | h
          · exact hA (h ▸ List.mem_cons_self _ _)
          · exact hA (List.mem_cons_of_mem _ h)
        · have : ('&' :: t).take (p.length - (a :: A').length) =
              '&' :: t.take (p.length - (a :: A').length - 1) := by
            match hk : p.length - (a :: A').length, hpos with
            | k + 1, _ => simp [List.take_succ_cons]
          rw [this] at heq
          have : '&' ∈ p := by
            rw [heq]
            exact List.mem_append_right _ (List.mem_cons_self _ _)
          exact hpa this
    rw [if_neg hnp]
    omega

/-! ## Facts about the characters produced by the encoder -/

theorem charOfNat_toNat {n : Nat} (h : n < 0xD800) : (Char.ofNat n).toNat = n := by
  unfold Char.ofNat
  rw [dif_pos (Or.inl h)]
  rfl

theorem utf8EncodeChar_lt (c : Char) : ∀ b ∈ utf8EncodeChar c, b < 256 := by
  intro b hb
  unfold utf8EncodeChar at hb
  by_cases h1 : c.toNat < 0x80
  · simp only [h1, if_pos] at hb
    simp only [List.mem_singleton] at hb
    omega
  · simp only [h1, if_neg, if_false] at hb
    by_cases h2 : c.toNat < 0x800
    · simp only [h2, if_pos] at hb
      rcases List.mem_cons.mp hb with rfl | hb
      · omega
      · simp only [List.mem_singleton] at hb
        omega
    · simp only [h2, if_false] at hb
      by_cases h3 : c.toNat < 0x10000
      · simp only [h3, if_pos] at hb
        rcases List.mem_cons.mp hb with rfl | hb
        · omega
        · rcases List.mem_cons.mp hb with rfl | hb
          · omega
          · simp only [List.mem_singleton] at hb
            omega
      · simp only [h3, if_false] at hb
        have hval : c.toNat < 0x110000 := by
          have h := c.valid
          simp [UInt32.isValidChar, Nat.isValidChar] at h
          have : c.toNat = c.val.toNat := rfl
          omega
        rcases List.mem_cons.mp hb with rfl | hb
        · omega
        · rcases List.mem_cons.mp hb with rfl | hb
          · omega
          · rcases List.mem_cons.mp hb with rfl | hb
            · omega
            · simp only [List.mem_singleton] at hb
              omega

/-! ## Unfolding lemmas for the decoder -/

theorem pd_cons_plus (rest : Str) :
    percentDecodeBytes ('+' :: rest) = 32 :: percentDecodeBytes rest := by
  match rest with
  | [] => rfl
  | [c1] => simp [percentDecodeBytes]
  | c1 :: c2 :: r => simp [percentDecodeBytes]

theorem pd_cons_other (c : Char) (rest : Str) (h1 : c ≠ '+') (h2 : c ≠ '%') :
    percentDecodeBytes (c :: rest) = utf8EncodeChar c ++ percentDecodeBytes rest := by
  match rest with
  | [] =>
    simp only [percentDecodeBytes, if_neg h1, if_neg h2]
    cases hu : utf8EncodeChar c with
    | nil => simp
    | cons b bs => simp
  | [c1] => simp [percentDecodeBytes, if_neg h1, if_neg h2]
  | c1 :: c2 :: r => simp [percentDecodeBytes, if_neg h1, if_neg h2]

theorem pd_triple (c1 c2 : Char) (rest : Str) (h l : Nat)
    (hh : hexVal? c1 = some h) (hl : hexVal? c2 = some l) :
    percentDecodeBytes ('%' :: c1 :: c2 :: rest) =
      (16 * h + l) :: percentDecodeBytes rest := by
  simp [percentDecodeBytes, hh, hl]

theorem hexDigitChar_toNat {n : Nat} (h : n < 16) :
    (hexDigitChar n).toNat = if n < 10 then 48 + n else 55 + n := by
  unfold hexDigitChar
  by_cases h10 : n < 10
  · rw [if_pos h10, if_pos h10, charOfNat_toNat (by omega)]
  · rw [if_neg h10, if_neg h10, charOfNat_toNat (by omega)]

theorem hexVal?_hexDigitChar {n : Nat} (h : n < 16) :
    hexVal? (hexDigitChar n) = some n := by
  unfold hexVal?
  rw [hexDigitChar_toNat h]
  by_cases h10 : n < 10
  · rw [if_pos h10, if_pos (by omega)]
    congr 1
    omega
  · rw [if_neg h10, if_neg (by omega), if_pos (by omega)]
    congr 1
    omega

theorem hexDigitChar_ne {n : Nat} (h : n < 16) :
    hexDigitChar n ≠ '=' ∧ hexDigitChar n ≠ '&' ∧ hexDigitChar n ≠ '+' ∧
      hexDigitChar n ≠ '%' := by
  have ht := hexDigitChar_toNat h
  refine ⟨?_, ?_, ?_, ?_⟩ <;>
    · intro heq
      have := congrArg Char.toNat heq
      rw [ht] at this
      by_cases h10 : n < 10 <;> simp [h10] at this <;> omega

theorem isFormSafe_ne {c : Char} (h : isFormSafe c = true) :
    c ≠ '=' ∧ c ≠ '&' ∧ c ≠ '+' ∧ c ≠ '%' := by
  refine ⟨?_, ?_, ?_, ?_⟩ <;>
    · intro heq
      subst heq
      exact absurd h (by decide)

/-- Every character emitted by the form encoder differs from `'='` and `'&'`. -/
theorem mem_encodeFormChar_ne (c : Char) :
    ∀ d ∈ encodeFormChar c, d ≠ '=' ∧ d ≠ '&' := by
  intro d hd
  unfold encodeFormChar at hd
  by_cases hsp : c = ' '
  · rw [if_pos hsp] at hd
    simp only [List.mem_singleton] at hd
    subst hd
    exact ⟨by decide, by decide⟩
  · rw [if_neg hsp] at hd
    by_cases hsafe : isFormSafe c = true
    · rw [if_pos hsafe] at hd
      simp only [List.mem_singleton] at hd
      subst hd
      have := isFormSafe_ne hsafe
      exact ⟨this.1, this.2.1⟩
    · rw [if_neg hsafe] at hd
      simp only [List.mem_flatMap] at hd
      obtain ⟨b, hb, hd⟩ := hd
      have hb256 := utf8EncodeChar_lt c b hb
      rcases List.mem_cons.mp hd with rfl | hd
      · exact ⟨by decide, by decide⟩
      · rcases List.mem_cons.mp hd with rfl | hd
        · have := hexDigitChar_ne (n := b / 16) (by omega)
          exact ⟨this.1, this.2.1⟩
        · simp only [List.mem_singleton] at hd
          subst hd
          have := hexDigitChar_ne (n := b % 16) (by omega)
          exact ⟨this.1, this.2.1⟩

theorem encodeForm_no_eq (s : Str) : '=' ∉ encodeForm s := by
  intro h
  rw [encodeForm, List.mem_flatMap] at h
  obtain ⟨c, _, hc⟩ := h
  exact (mem_encodeFormChar_ne c _ hc).1 rfl

theorem encodeForm_no_amp (s : Str) : '&' ∉ encodeForm s := by
  intro h
  rw [encodeForm, List.mem_flatMap] at h
  obtain ⟨c, _, hc⟩ := h
  exact (mem_encodeFormChar_ne c _ hc).2 rfl

/-! ## The encode/decode round trip -/

theorem pd_encodeFormChar (c : Char) (rest : Str) :
    percentDecodeBytes (encodeFormChar c ++ rest) =
      utf8EncodeChar c ++ percentDecodeBytes rest := by
  unfold encodeFormChar
  by_cases hsp : c = ' '
  · subst hsp
    rw [if_pos rfl]
    rw [show (['+'] : Str) ++ rest = '+' :: rest from rfl, pd_cons_plus]
    rfl
  · rw [if_neg hsp]
    by_cases hsafe : isFormSafe c = true
    · rw [if_pos hsafe]
      have hne := isFormSafe_ne hsafe
      rw [show ([c] : Str) ++ rest = c :: rest from rfl,
        pd_cons_other c rest hne.2.2.1 hne.2.2.2]
    · rw [if_neg hsafe]
      generalize hbs : utf8EncodeChar c = bs
      have hlt : ∀ b ∈ bs, b < 256 := by
        intro b hb
        exact utf8EncodeChar_lt c b (hbs ▸ hb)
      clear hbs hsafe hsp
      induction bs with
      | nil => simp
      | cons b bs ih =>
        have hb256 : b < 256 := hlt b (List.mem_cons_self _ _)
        have hbs' : ∀ x ∈ bs, x < 256 := fun x hx => hlt x (List.mem_cons_of_mem _ hx)
        rw [List.flatMap_cons]
        rw [show (['%', hexDigitChar (b / 16), hexDigitChar (b % 16)] ++
          bs.flatMap (fun b => ['%', hexDigitChar (b / 16), hexDigitChar (b % 16)])) ++ rest =
          '%' :: hexDigitChar (b / 16) :: hexDigitChar (b % 16) ::
            (bs.flatMap (fun b => ['%', hexDigitChar (b / 16), hexDigitChar (b % 16)]) ++ rest)
          from by simp]
        rw [pd_triple _ _ _ (b / 16) (b % 16)
          (hexVal?_hexDigitChar (by omega)) (hexVal?_hexDigitChar (by omega))]
        rw [ih hbs']
        have : 16 * (b / 16) + b % 16 = b := by omega
        rw [this]
        rfl

theorem pd_encodeForm (s : Str) :
    percentDecodeBytes (encodeForm s) = s.flatMap utf8EncodeChar := by
  induction s with
  | nil => rfl
  | cons c t ih =>
    rw [encodeForm, List.flatMap_cons, pd_encodeFormChar, List.flatMap_cons]
    rw [show t.flatMap encodeFormChar = encodeForm t from rfl, ih]

theorem utf8Decode_single {b : Nat} (h : b < 0x80) (rest : List Nat) :
    utf8Decode (b :: rest) = Char.ofNat b :: utf8Decode rest := by
  match rest with
  | [] =>
    conv_lhs => rw [utf8Decode]
    rw [if_pos h]
    rfl
  | [x] =>
    conv_lhs => rw [utf8Decode]
    rw [if_pos h]
  | [x, y] =>
    conv_lhs => rw [utf8Decode]
    rw [if_pos h]
  | x :: y :: z :: r =>
    conv_lhs => rw [utf8Decode]
    rw [if_pos h]

theorem utf8Decode_two {b : Nat} (hlo : 0xC0 ≤ b) (hhi : b < 0xE0)
    (b2 : Nat) (rest : List Nat) :
    utf8Decode (b :: b2 :: rest) =
      Char.ofNat ((b - 0xC0) * 0x40 + (b2 - 0x80)) :: utf8Decode rest := by
  match rest with
  | [] =>
    conv_lhs => rw [utf8Decode]
    rw [if_neg (by omega), if_neg (by omega), if_pos hhi]
    rfl
  | [x] =>
    conv_lhs => rw [utf8Decode]
    rw [if_neg (by omega), if_neg (by omega), if_pos hhi]
  | x :: y :: r =>
    conv_lhs => rw [utf8Decode]
    rw [if_neg (by omega), if_neg (by omega), if_pos hhi]

theorem utf8Decode_three {b : Nat} (hlo : 0xE0 ≤ b) (hhi : b < 0xF0)
    (b2 b3 : Nat) (rest : List Nat) :
    utf8Decode (b :: b2 :: b3 :: rest) =
      Char.ofNat ((b - 0xE0) * 0x1000 + (b2 - 0x80) * 0x40 + (b3 - 0x80)) ::
        utf8Decode rest := by
  match rest with
  | [] =>
    conv_lhs => rw [utf8Decode]
    rw [if_neg (by omega), if_neg (by omega), if_neg (by omega), if_pos hhi]
    rfl
  | x :: r =>
    conv_lhs => rw [utf8Decode]
    rw [if_neg (by omega), if_neg (by omega), if_neg (by omega), if_pos hhi]

theorem utf8Decode_four {b : Nat} (hlo : 0xF0 ≤ b) (b2 b3 b4 : Nat)
    (rest : List Nat) :
    utf8Decode (b :: b2 :: b3 :: b4 :: rest) =
      Char.ofNat ((b - 0xF0) * 0x40000 + (b2 - 0x80) * 0x1000 +
        (b3 - 0x80) * 0x40 + (b4 - 0x80)) :: utf8Decode rest := by
  conv_lhs => rw [utf8Decode]
  rw [if_neg (by omega), if_neg (by omega), if_neg (by omega),
    if_neg (by omega)]

theorem utf8Decode_encodeChar (c : Char) (bs : List Nat) :
    utf8Decode (utf8EncodeChar c ++ bs) = c :: utf8Decode bs := by
  have hofn : Char.ofNat c.toNat = c := Char.ofNat_toNat c
  unfold utf8EncodeChar
  by_cases h1 : c.toNat < 0x80
  · rw [if_pos h1]
    rw [show [c.toNat] ++ bs = c.toNat :: bs from rfl]
    rw [utf8Decode_single h1, hofn]
  · rw [if_neg h1]
    by_cases h2 : c.toNat < 0x800
    · rw [if_pos h2]
      rw [show [0xC0 + c.toNat / 0x40, 0x80 + c.toNat % 0x40] ++ bs =
        (0xC0 + c.toNat / 0x40) :: (0x80 + c.toNat % 0x40) :: bs from rfl]
      rw [utf8Decode_two (by omega) (by omega)]
      have harg : (0xC0 + c.toNat / 0x40 - 0xC0) * 0x40 +
          (0x80 + c.toNat % 0x40 - 0x80) = c.toNat := by omega
      rw [harg, hofn]
    · rw [if_neg h2]
      by_cases h3 : c.toNat < 0x10000
      · rw [if_pos h3]
        rw [show [0xE0 + c.toNat / 0x1000, 0x80 + c.toNat / 0x40 % 0x40,
          0x80 + c.toNat % 0x40] ++ bs = (0xE0 + c.toNat / 0x1000) ::
          (0x80 + c.toNat / 0x40 % 0x40) :: (0x80 + c.toNat % 0x40) :: bs from rfl]
        rw [utf8Decode_three (by omega) (by omega)]
        have harg : (0xE0 + c.toNat / 0x1000 - 0xE0) * 0x1000 +
            (0x80 + c.toNat / 0x40 % 0x40 - 0x80) * 0x40 +
            (0x80 + c.toNat % 0x40 - 0x80) = c.toNat := by omega
        rw [harg, hofn]
      · rw [if_neg h3]
        rw [show [0xF0 + c.toNat / 0x40000, 0x80 + c.toNat / 0x1000 % 0x40,
          0x80 + c.toNat / 0x40 % 0x40, 0x80 + c.toNat % 0x40] ++ bs =
          (0xF0 + c.toNat / 0x40000) :: (0x80 + c.toNat / 0x1000 % 0x40) ::
          (0x80 + c.toNat / 0x40 % 0x40) :: (0x80 + c.toNat % 0x40) :: bs from rfl]
        rw [utf8Decode_four (by omega)]
        have harg : (0xF0 + c.toNat / 0x40000 - 0xF0) * 0x40000 +
            (0x80 + c.toNat / 0x1000 % 0x40 - 0x80) * 0x1000 +
            (0x80 + c.toNat / 0x40 % 0x40 - 0x80) * 0x40 +
            (0x80 + c.toNat % 0x40 - 0x80) = c.toNat := by omega
        rw [harg, hofn]

theorem utf8Decode_flatMap (s : Str) :
    utf8Decode (s.flatMap utf8EncodeChar) = s := by
  induction s with
  | nil => rfl
  | cons c t ih =>
    rw [List.flatMap_cons, utf8Decode_encodeChar, ih]

/-- Standard query-parameter decoding is a left inverse of the
`URLSearchParams` value encoding: the round-trip property. -/
theorem formDecode_encodeForm (s : Str) : formDecode (encodeForm s) = s := by
  rw [formDecode, pd_encodeForm, utf8Decode_flatMap]

/-! ## Lemmas about the resolver and the builder -/

theorem resolveUrl_absolute (env : Env) (url : Str) (b : Option Str)
    (h : isRelativeUrl url = false) : resolveUrl env url b = Except.ok url := by
  rw [resolveUrl, if_pos h]

theorem isRelativeUrl_ne_nil {url : Str} (h : isRelativeUrl url = false) :
    url ≠ [] := by
  intro hnil
  subst hnil
  exact absurd h (by decide)

theorem buildImageUrlResolved_ok (slug r : Str) (fopt : Option Str)
    (wopt : Option JNum)
    (hf : jsOrStr fopt (str ("webp")) = str ("webp") ∨
      jsOrStr fopt (str ("webp")) = str ("png"))
    (hw : wopt = none ∨ ∃ n : Int, 0 ≤ n ∧ wopt = some (JNum.int n)) :
    buildImageUrlResolved slug r fopt wopt = Except.ok (builtUrl slug r fopt wopt) := by
  rw [buildImageUrlResolved]
  rw [if_neg (by
    rcases hf with h | h <;> rw [h] <;> intro hc <;> simp at hc)]
  rw [if_neg (by
    rcases hw with rfl | ⟨n, hn, rfl⟩ <;> simp [jsIsNaN])]
  rw [if_neg (by
    rcases hw with rfl | ⟨n, hn, rfl⟩
    · simp [jnumTruthy, jnumLe0]
    · simp [jnumTruthy, jnumLe0]
      intro h
      omega)]

/-- The success shape of `buildImageUrl` on an absolute source URL. -/
theorem buildImageUrl_ok (env : Env) (slug url : Str) (b : Option Str)
    (fopt : Option Str) (wopt : Option JNum)
    (hs : slug ≠ []) (hu : isRelativeUrl url = false)
    (hf : jsOrStr fopt (str ("webp")) = str ("webp") ∨
      jsOrStr fopt (str ("webp")) = str ("png"))
    (hw : wopt = none ∨ ∃ n : Int, 0 ≤ n ∧ wopt = some (JNum.int n)) :
    buildImageUrl env slug url ⟨b, fopt, wopt⟩ =
      Except.ok (builtUrl slug url fopt wopt) := by
  rw [buildImageUrl, if_neg hs, if_neg (isRelativeUrl_ne_nil hu),
    resolveUrl_absolute env url b hu]
  exact buildImageUrlResolved_ok slug url fopt wopt hf hw

theorem buildImageUrl_empty_slug (env : Env) (url : Str)
    (opts : TransformationOptions) :
    buildImageUrl env [] url opts =
      Except.error (JsError.jsError (str ("projectSlug is required."))) := by
  rw [buildImageUrl, if_pos rfl]

theorem buildImageUrl_empty_src (env : Env) (slug : Str) (hs : slug ≠ [])
    (opts : TransformationOptions) :
    buildImageUrl env slug [] opts =
      Except.error (JsError.jsError (str ("originalImageUrl is required."))) := by
  rw [buildImageUrl, if_neg hs, if_pos rfl]

theorem buildImageUrl_resolveError (env : Env) (slug url : Str)
    (opts : TransformationOptions) (e : JsError) (hs : slug ≠ []) (hu : url ≠ [])
    (hres : resolveUrl env url opts.baseUrl = Except.error e) :
    buildImageUrl env slug url opts = Except.error e := by
  rw [buildImageUrl, if_neg hs, if_neg hu, hres]

/-- A `buildImageUrl` failure with no width requested is caused by the
slug, source URL, resolution or format check alone, so the same failure
happens for every width. -/
theorem buildImageUrl_error_width_independent (env : Env) (slug url : Str)
    (b fopt : Option Str) (e : JsError)
    (h : buildImageUrl env slug url ⟨b, fopt, none⟩ = Except.error e)
    (w' : Option JNum) :
    buildImageUrl env slug url ⟨b, fopt, w'⟩ = Except.error e := by
  by_cases hs : slug = []
  · subst hs
    rw [buildImageUrl_empty_slug] at h ⊢
    exact h
  · by_cases hu : url = []
    · subst hu
      rw [buildImageUrl_empty_src env slug hs] at h ⊢
      exact h
    · rw [buildImageUrl, if_neg hs, if_neg hu] at h ⊢
      dsimp only at h ⊢
      cases hres : resolveUrl env url b with
      | error e' =>
        rw [hres] at h
        exact h
      | ok r =>
        rw [hres] at h
        have h' : buildImageUrlResolved slug r fopt none = Except.error e := h
        show buildImageUrlResolved slug r fopt w' = Except.error e
        rw [buildImageUrlResolved] at h' ⊢
        by_cases hfmt : jsOrStr fopt (str ("webp")) ≠ str ("webp") ∧
            jsOrStr fopt (str ("webp")) ≠ str ("png")
        · rw [if_pos hfmt] at h' ⊢
          exact h'
        · rw [if_neg hfmt] at h'
          rw [show jsIsNaN (none : Option JNum) = false from rfl] at h'
          rw [if_neg (by simp)] at h'
          rw [show (jnumTruthy (none : Option JNum) && jnumLe0 none) = false
            from rfl] at h'
          rw [if_neg (by simp)] at h'
          exact absurd h' (by simp)

theorem buildImageUrlResolved_badFormat (slug r : Str) (fopt : Option Str)
    (wopt : Option JNum)
    (hf : jsOrStr fopt (str ("webp")) ≠ str ("webp") ∧
      jsOrStr fopt (str ("webp")) ≠ str ("png")) :
    buildImageUrlResolved slug r fopt wopt = Except.error (JsError.jsError
      (str ("Invalid format. Supported formats are webp and png."))) := by
  rw [buildImageUrlResolved, if_pos hf]

theorem buildImageUrlResolved_nan (slug r : Str) (fopt : Option Str)
    (hf : jsOrStr fopt (str ("webp")) = str ("webp") ∨
      jsOrStr fopt (str ("webp")) = str ("png")) :
    buildImageUrlResolved slug r fopt (some JNum.nan) =
      Except.error (JsError.jsError (str ("Width must be a number."))) := by
  rw [buildImageUrlResolved]
  rw [if_neg (by rcases hf with h | h <;> rw [h] <;> intro hc <;> simp at hc)]
  rw [if_pos (show jsIsNaN (some JNum.nan) = true from rfl)]

theorem buildImageUrlResolved_negWidth (slug r : Str) (fopt : Option Str)
    (n : Int) (hn : n < 0)
    (hf : jsOrStr fopt (str ("webp")) = str ("webp") ∨
      jsOrStr fopt (str ("webp")) = str ("png")) :
    buildImageUrlResolved slug r fopt (some (JNum.int n)) =
      Except.error (JsError.jsError (str ("Width must be a positive number."))) := by
  rw [buildImageUrlResolved]
  rw [if_neg (by rcases hf with h | h <;> rw [h] <;> intro hc <;> simp at hc)]
  rw [if_neg (by simp [jsIsNaN])]
  rw [if_pos (by simp [jnumTruthy, jnumLe0]; omega)]

/-- The negative-width failure of `buildImageUrl` on an absolute URL. -/
theorem buildImageUrl_negWidth (env : Env) (slug url : Str) (b : Option Str)
    (fopt : Option Str) (n : Int) (hn : n < 0) (hs : slug ≠ [])
    (hu : isRelativeUrl url = false)
    (hf : jsOrStr fopt (str ("webp")) = str ("webp") ∨
      jsOrStr fopt (str ("webp")) = str ("png")) :
    buildImageUrl env slug url ⟨b, fopt, some (JNum.int n)⟩ =
      Except.error (JsError.jsError (str ("Width must be a positive number."))) := by
  rw [buildImageUrl, if_neg hs, if_neg (isRelativeUrl_ne_nil hu),
    resolveUrl_absolute env url b hu]
  exact buildImageUrlResolved_negWidth slug url fopt n hn hf

/-- The NaN-width failure of `buildImageUrl` on an absolute URL. -/
theorem buildImageUrl_nan (env : Env) (slug url : Str) (b : Option Str)
    (fopt : Option Str) (hs : slug ≠ []) (hu : isRelativeUrl url = false)
    (hf : jsOrStr fopt (str ("webp")) = str ("webp") ∨
      jsOrStr fopt (str ("webp")) = str ("png")) :
    buildImageUrl env slug url ⟨b, fopt, some JNum.nan⟩ =
      Except.error (JsError.jsError (str ("Width must be a number."))) := by
  rw [buildImageUrl, if_neg hs, if_neg (isRelativeUrl_ne_nil hu),
    resolveUrl_absolute env url b hu]
  exact buildImageUrlResolved_nan slug url fopt hf

/-! ## Lemmas about `mapEntries` -/

theorem mapEntries_cons_error (env : Env) (p s : Str) (b f : Option Str)
    (w : Int) (ws : List Int) (e : JsError)
    (h : buildImageUrl env p s ⟨b, f, some (JNum.int w)⟩ = Except.error e) :
    mapEntries env p s b f (w :: ws) = Except.error e := by
  rw [mapEntries, srcSetEntry, h]

theorem mapEntries_ok (env : Env) (p s : Str) (b f : Option Str)
    (L : List Int) (es : List Str)
    (h : mapEntries env p s b f L = Except.ok es) :
    es = L.map (fun w => urlOf env p s b f w ++ [' '] ++ intToStr w ++ ['w']) ∧
      ∀ w ∈ L, buildImageUrl env p s ⟨b, f, some (JNum.int w)⟩ =
        Except.ok (urlOf env p s b f w) := by
  induction L generalizing es with
  | nil =>
    rw [mapEntries] at h
    refine ⟨?_, by simp⟩
    injection h with h
    rw [← h]
    rfl
  | cons w ws ih =>
    rw [mapEntries] at h
    cases hw : srcSetEntry env p s b f w with
    | error e =>
      rw [hw] at h
      exact absurd h (by simp)
    | ok entry =>
      rw [hw] at h
      cases hws : mapEntries env p s b f ws with
      | error e =>
        rw [hws] at h
        exact absurd h (by simp)
      | ok rest =>
        rw [hws] at h
        injection h with h
        obtain ⟨hrest, hall⟩ := ih rest hws
        rw [srcSetEntry] at hw
        cases hbw : buildImageUrl env p s ⟨b, f, some (JNum.int w)⟩ with
        | error e =>
          rw [hbw] at hw
          exact absurd hw (by simp)
        | ok u =>
          rw [hbw] at hw
          injection hw with hw
          have hurl : urlOf env p s b f w = u := by
            rw [urlOf, hbw]
          constructor
          · rw [← h, List.map_cons, ← hrest, hurl, hw]
          · intro x hx
            rcases List.mem_cons.mp hx with rfl | hx
            · rw [hurl]
              exact hbw
            · exact hall x hx

/-! ## Segment counting: occurrences of key-value patterns -/

/-- Two decompositions around a first `'='` agree. -/
theorem eq_of_append_eqfree : ∀ (q r t u : Str), '=' ∉ q → '=' ∉ r →
    q ++ '=' :: t = r ++ '=' :: u → q = r ∧ t = u := by
  intro q
  induction q with
  | nil =>
    intro r t u _ hr heq
    match r with
    | [] =>
      rw [List.nil_append, List.nil_append] at heq
      injection heq with _ h2
      exact ⟨rfl, h2⟩
    | c :: r' =>
      rw [List.nil_append] at heq
      injection heq with h1 _
      exact absurd (h1 ▸ List.mem_cons_self _ _ : '=' ∈ c :: r') hr
  | cons c q' ih =>
    intro r t u hq hr heq
    match r with
    | [] =>
      rw [List.nil_append] at heq
      injection heq with h1 _
      exact absurd (h1 ▸ List.mem_cons_self _ _ : '=' ∈ c :: q') hq
    | d :: r' =>
      rw [List.cons_append, List.cons_append] at heq
      injection heq with h1 h2
      have hq' : '=' ∉ q' := fun h => hq (List.mem_cons_of_mem _ h)
      have hr' : '=' ∉ r' := fun h => hr (List.mem_cons_of_mem _ h)
      obtain ⟨hqr, htu⟩ := ih r' t u hq' hr' h2
      exact ⟨by rw [h1, hqr], htu⟩

theorem suffix_append_right_iff (q X Y : Str) (hlen : q.length ≤ Y.length) :
    q <:+ X ++ Y ↔ q <:+ Y := by
  constructor
  · rintro ⟨s, hs⟩
    have hlen2 : s.length + q.length = X.length + Y.length := by
      have := congrArg List.length hs
      simpa using this
    refine ⟨s.drop X.length, ?_⟩
    have : X.length ≤ s.length := by omega
    have hsplit : s = s.take X.length ++ s.drop X.length := (List.take_append_drop _ _).symm
    rw [hsplit, List.append_assoc] at hs
    have hXeq : s.take X.length = X := by
      have hlt : (s.take X.length).length = X.length := by
        rw [List.length_take]
        omega
      exact List.append_inj_left hs hlt
    rw [hXeq] at hs
    exact List.append_cancel_left hs
  · rintro ⟨s, hs⟩
    exact ⟨X ++ s, by rw [List.append_assoc, hs]⟩

theorem suffix_long_of_suffix (q X Y : Str) (h : q <:+ X ++ Y)
    (hlen : Y.length ≤ q.length) : Y <:+ q := by
  obtain ⟨s, hs⟩ := h
  have hlen2 : s.length + q.length = X.length + Y.length := by
    have := congrArg List.length hs
    simpa using this
  have hq : q = q.take (q.length - Y.length) ++ q.drop (q.length - Y.length) :=
    (List.take_append_drop _ _).symm
  have hsl : (s ++ q.take (q.length - Y.length)).length = X.length := by
    simp only [List.length_append, List.length_take]
    omega
  rw [hq, ← List.append_assoc] at hs
  have hYeq : q.drop (q.length - Y.length) = Y := List.append_inj_right hs hsl
  refine ⟨q.take (q.length - Y.length), ?_⟩
  rw [hYeq] at hq
  exact hq.symm

/-- Occurrence counting across one `<block>'='` segment: a pattern
`q ++ "="` with `'=' ∉ q` occurs exactly once per segment whose
`'='`-free block ends in `q`. -/
theorem countSub_seg (q : Str) (hq : q ≠ []) (hqe : '=' ∉ q) :
    ∀ (A rest : Str), '=' ∉ A →
      countSub (q ++ ['=']) (A ++ '=' :: rest) =
        (if q <:+ A then 1 else 0) + countSub (q ++ ['=']) rest := by
  intro A
  induction A with
  | nil =>
    intro rest _
    rw [List.nil_append]
    simp only [countSub]
    have hnp : ¬ (q ++ ['=']).isPrefixOf ('=' :: rest) = true := by
      intro hp
      obtain ⟨t, ht⟩ := List.isPrefixOf_iff_prefix.mp hp
      match q, hq with
      | c :: q', _ =>
        rw [List.cons_append, List.cons_append] at ht
        injection ht with h1 _
        exact hqe (h1 ▸ List.mem_cons_self _ _)
    rw [if_neg hnp, if_neg (by
      intro hsuf
      obtain ⟨s, hs⟩ := hsuf
      exact hq (List.append_eq_nil.mp hs).2)]
  | cons a A' ih =>
    intro rest hA
    have hA' : '=' ∉ A' := fun h => hA (List.mem_cons_of_mem _ h)
    rw [List.cons_append]
    simp only [countSub]
    rw [ih rest hA']
    by_cases hqa : q = a :: A'
    · have hpre : (q ++ ['=']).isPrefixOf (a :: (A' ++ '=' :: rest)) = true := by
        apply List.isPrefixOf_iff_prefix.mpr
        refine ⟨rest, ?_⟩
        rw [hqa]
        simp
      rw [if_pos hpre]
      have hsufa : q <:+ a :: A' := by
        rw [hqa]
      rw [if_pos hsufa]
      have hnsuf : ¬ q <:+ A' := by
        intro hsuf
        have hle := hsuf.length_le
        rw [hqa] at hle
        simp at hle
      rw [if_neg hnsuf]
      omega
    · have hnpre : ¬ (q ++ ['=']).isPrefixOf (a :: (A' ++ '=' :: rest)) = true := by
        intro hp
        obtain ⟨t, ht⟩ := List.isPrefixOf_iff_prefix.mp hp
        have heq2 : q ++ '=' :: t = (a :: A') ++ '=' :: rest := by
          calc q ++ '=' :: t = (q ++ ['=']) ++ t := by simp
          _ = a :: (A' ++ '=' :: rest) := ht
          _ = (a :: A') ++ '=' :: rest := by simp
        obtain ⟨hqr, _⟩ := eq_of_append_eqfree q (a :: A') t rest hqe hA heq2
        exact hqa hqr
      rw [if_neg hnpre]
      have hiff : (q <:+ a :: A') ↔ (q = a :: A' ∨ q <:+ A') := List.suffix_cons_iff
      by_cases hsa : q <:+ A'
      · rw [if_pos (hiff.mpr (Or.inr hsa)), if_pos hsa]
        omega
      · rw [if_neg (fun hc => (hiff.mp hc).elim hqa hsa), if_neg hsa]
        omega

theorem suffix_append_iff_of_amp (q X Y : Str) (hq : '&' ∉ q) (hY : '&' ∈ Y) :
    q <:+ X ++ Y ↔ q <:+ Y := by
  constructor
  · intro h
    by_cases hl : q.length ≤ Y.length
    · exact (suffix_append_right_iff q X Y hl).mp h
    · have hsub := suffix_long_of_suffix q X Y h (by omega)
      exact absurd (hsub.subset hY) hq
  · rintro ⟨s, hs⟩
    exact ⟨X ++ s, by rw [List.append_assoc, hs]⟩

theorem countSub_tail_zero (p D : Str) (hp : '=' ∈ p) (hpa : '&' ∉ p)
    (hD : '=' ∉ D) : countSub p D = 0 := by
  have := countSub_skip_block p D [] hp hpa hD (Or.inl rfl)
  rw [List.append_nil] at this
  rw [this]
  rfl

/-- Occurrences of a `<key>=` pattern in the assembled query string are
exactly the segments whose block ends with the key. -/
theorem countSub_key_segments (q : Str) (hq : q ≠ []) (hqe : '=' ∉ q)
    (hqa : '&' ∉ q) (E1 E2 TAIL : Str) (h1 : '=' ∉ E1) (h2 : '=' ∉ E2) :
    countSub (q ++ ['=']) (str ("https://pixelpuppy.io/api/image?project") ++ '=' ::
      (E1 ++ (str ("&url") ++ '=' :: (E2 ++ (str ("&format") ++ '=' :: TAIL))))) =
    ((if q <:+ str ("https://pixelpuppy.io/api/image?project") then 1 else 0) +
      ((if q <:+ str ("&url") then 1 else 0) +
        ((if q <:+ str ("&format") then 1 else 0) +
          countSub (q ++ ['=']) TAIL))) := by
  rw [countSub_seg q hq hqe _ _ (by decide)]
  congr 1
  rw [show E1 ++ (str ("&url") ++ '=' :: (E2 ++ (str ("&format") ++ '=' :: TAIL))) =
    (E1 ++ str ("&url")) ++ '=' :: (E2 ++ (str ("&format") ++ '=' :: TAIL)) from by
      rw [List.append_assoc]]
  rw [countSub_seg q hq hqe _ _ (by
    intro hc
    rcases List.mem_append.mp hc with hc | hc
    · exact h1 hc
    · exact absurd hc (by decide))]
  simp only [suffix_append_iff_of_amp q E1 (str ("&url")) hqa (by decide)]
  congr 1
  rw [show E2 ++ (str ("&format") ++ '=' :: TAIL) =
    (E2 ++ str ("&format")) ++ '=' :: TAIL from by rw [List.append_assoc]]
  rw [countSub_seg q hq hqe _ _ (by
    intro hc
    rcases List.mem_append.mp hc with hc | hc
    · exact h2 hc
    · exact absurd hc (by decide))]
  simp only [suffix_append_iff_of_amp q E2 (str ("&format")) hqa (by decide)]

/-- Occurrence count across the optional width segment. -/
theorem countSub_width_tail (q F : Str) (wopt : Option JNum)
    (hq : q ≠ []) (hqe : '=' ∉ q) (hqa : '&' ∉ q) (hF : '=' ∉ F) :
    countSub (q ++ ['=']) (F ++ widthPart wopt) =
      (match wopt with
        | some (JNum.int n) =>
          if n ≠ 0 then (if q <:+ str ("&width") then 1 else 0) else 0
        | _ => 0) := by
  have hpe : '=' ∈ q ++ ['='] := by simp
  have hpa : '&' ∉ q ++ ['='] := by
    intro hc
    rcases List.mem_append.mp hc with hc | hc
    · exact hqa hc
    · simp at hc
  match wopt with
  | none =>
    rw [show widthPart none = [] from rfl, List.append_nil]
    exact countSub_tail_zero _ _ hpe hpa hF
  | some JNum.nan =>
    rw [show widthPart (some JNum.nan) = [] from rfl, List.append_nil]
    exact countSub_tail_zero _ _ hpe hpa hF
  | some (JNum.int n) =>
    by_cases hn : n ≠ 0
    · rw [show widthPart (some (JNum.int n)) =
        str ("&width") ++ '=' :: encodeForm (intToStr n) from by
          rw [widthPart, if_pos hn]
          rfl]
      rw [← List.append_assoc]
      rw [countSub_seg q hq hqe _ _ (by
        intro hc
        rcases List.mem_append.mp hc with hc | hc
        · exact hF hc
        · exact absurd hc (by decide))]
      simp only [suffix_append_iff_of_amp q F (str ("&width")) hqa (by decide)]
      rw [countSub_tail_zero _ _ hpe hpa (encodeForm_no_eq _)]
      simp [hn]
    · push_neg at hn
      subst hn
      rw [show widthPart (some (JNum.int 0)) = [] from rfl, List.append_nil]
      rw [countSub_tail_zero _ _ hpe hpa hF]
      simp

theorem builtUrl_shape (slug url : Str) (fopt : Option Str) (wopt : Option JNum) :
    builtUrl slug url fopt wopt =
      str ("https://pixelpuppy.io/api/image?project") ++ '=' ::
        (encodeForm slug ++ (str ("&url") ++ '=' ::
          (encodeForm url ++ (str ("&format") ++ '=' ::
            (encodeForm (toLowerStr (jsOrStr fopt (str ("webp")))) ++
              widthPart wopt))))) := by
  rw [builtUrl]
  simp only [List.append_assoc]
  rfl

theorem countSub_url_once (slug url : Str) (fopt : Option Str)
    (wopt : Option JNum) :
    countSub (str ("url=")) (builtUrl slug url fopt wopt) = 1 := by
  rw [builtUrl_shape]
  rw [show str ("url=") = str ("url") ++ ['='] from rfl]
  rw [countSub_key_segments (str ("url")) (by decide) (by decide) (by decide)
    (encodeForm slug) (encodeForm url) _ (encodeForm_no_eq _) (encodeForm_no_eq _)]
  rw [countSub_width_tail (str ("url")) _ wopt (by decide) (by decide) (by decide)
    (encodeForm_no_eq _)]
  rw [if_neg (by decide), if_pos (by decide), if_neg (by decide)]
  have hm : (match wopt with
      | some (JNum.int n) =>
        if n ≠ 0 then (if str ("url") <:+ str ("&width") then 1 else 0) else 0
      | _ => 0) = 0 := by
    match wopt with
    | none => rfl
    | some JNum.nan => rfl
    | some (JNum.int n) =>
      by_cases hn : n ≠ 0
      · simp only [if_pos hn]
        rw [if_neg (by decide)]
      · simp [hn]
  rw [hm]

theorem countSub_width_zero_of_widthZero (slug url : Str) (fopt : Option Str) :
    countSub (str ("width=")) (builtUrl slug url fopt (some (JNum.int 0))) = 0 := by
  rw [builtUrl_shape]
  rw [show str ("width=") = str ("width") ++ ['='] from rfl]
  rw [countSub_key_segments (str ("width")) (by decide) (by decide) (by decide)
    (encodeForm slug) (encodeForm url) _ (encodeForm_no_eq _) (encodeForm_no_eq _)]
  rw [countSub_width_tail (str ("width")) _ _ (by decide) (by decide) (by decide)
    (encodeForm_no_eq _)]
  rw [if_neg (by decide), if_neg (by decide), if_neg (by decide)]
  simp

theorem suffix_append_of_suffix (q X Y : Str) (h : q <:+ Y) : q <:+ X ++ Y := by
  obtain ⟨s, hs⟩ := h
  exact ⟨X ++ s, by rw [List.append_assoc, hs]⟩

/-- C3: for every non-empty projectSlug and absolute originalImageUrl,
`buildImageUrl` emits a query string whose keys appear in the exact order
`project`, `url`, `format` (and `width` only for a non-zero width), in
which `url=` occurs exactly once, and standard query decoding of the
encoded url value reproduces the original URL exactly (round trip). -/
theorem c3_buildImageUrl_query_roundtrip (env : Env) (slug url : Str)
    (b fopt : Option Str) (wopt : Option JNum)
    (hs : slug ≠ []) (hu : isRelativeUrl url = false)
    (hf : jsOrStr fopt (str ("webp")) = str ("webp") ∨
      jsOrStr fopt (str ("webp")) = str ("png"))
    (hw : wopt = none ∨ ∃ n : Int, 0 ≤ n ∧ wopt = some (JNum.int n)) :
    buildImageUrl env slug url ⟨b, fopt, wopt⟩ =
      Except.ok (builtUrl slug url fopt wopt) ∧
    builtUrl slug url fopt wopt =
      pixelPuppyEndpoint ++ str ("?project=") ++ encodeForm slug ++
        str ("&url=") ++ encodeForm url ++ str ("&format=") ++
        encodeForm (toLowerStr (jsOrStr fopt (str ("webp")))) ++ widthPart wopt ∧
    (∀ n : Int, wopt = some (JNum.int n) → n ≠ 0 →
      widthPart wopt = str ("&width=") ++ encodeForm (intToStr n)) ∧
    ((wopt = none ∨ wopt = some (JNum.int 0)) → widthPart wopt = []) ∧
    countSub (str ("url=")) (builtUrl slug url fopt wopt) = 1 ∧
    formDecode (encodeForm url) = url := by
  refine ⟨buildImageUrl_ok env slug url b fopt wopt hs hu hf hw, rfl, ?_, ?_,
    countSub_url_once slug url fopt wopt, formDecode_encodeForm url⟩
  · intro n hn hnz
    rw [hn, widthPart, if_pos hnz]
  · rintro (rfl | rfl)
    · rfl
    · rfl

/-- C3 witness. -/
theorem c3_witness :
    buildImageUrl ⟨none, none⟩ (str ("my-project"))
        (str ("https://example.com/photo.jpg")) ⟨none, none, some (JNum.int 800)⟩ =
      Except.ok (builtUrl (str ("my-project")) (str ("https://example.com/photo.jpg"))
        none (some (JNum.int 800))) ∧
    countSub (str ("url=")) (builtUrl (str ("my-project"))
      (str ("https://example.com/photo.jpg")) none (some (JNum.int 800))) = 1 ∧
    formDecode (encodeForm (str ("https://example.com/photo.jpg"))) =
      str ("https://example.com/photo.jpg") := by
  have h := c3_buildImageUrl_query_roundtrip ⟨none, none⟩ (str ("my-project"))
    (str ("https://example.com/photo.jpg")) none none (some (JNum.int 800))
    (by decide) (by decide) (Or.inl rfl) (Or.inr ⟨800, by omega, rfl⟩)
  exact ⟨h.1, h.2.2.2.2.1, h.2.2.2.2.2⟩

/-- C4: `buildImageUrl` with width 0 succeeds and omits the `width=`
parameter; width 100 produces `width=100`; any negative width fails with
the positive-number message; a NaN width fails with the number message. -/
theorem c4_buildImageUrl_width_validation (env : Env) (slug url : Str)
    (b fopt : Option Str) (hs : slug ≠ []) (hu : isRelativeUrl url = false)
    (hf : jsOrStr fopt (str ("webp")) = str ("webp") ∨
      jsOrStr fopt (str ("webp")) = str ("png")) :
    (buildImageUrl env slug url ⟨b, fopt, some (JNum.int 0)⟩ =
        Except.ok (builtUrl slug url fopt (some (JNum.int 0))) ∧
      ¬ str ("width=") <:+: builtUrl slug url fopt (some (JNum.int 0))) ∧
    (buildImageUrl env slug url ⟨b, fopt, some (JNum.int 100)⟩ =
        Except.ok (builtUrl slug url fopt (some (JNum.int 100))) ∧
      str ("width=100") <:+: builtUrl slug url fopt (some (JNum.int 100))) ∧
    (∀ n : Int, n < 0 →
      buildImageUrl env slug url ⟨b, fopt, some (JNum.int n)⟩ =
        Except.error (JsError.jsError (str ("Width must be a positive number.")))) ∧
    buildImageUrl env slug url ⟨b, fopt, some JNum.nan⟩ =
      Except.error (JsError.jsError (str ("Width must be a number."))) := by
  refine ⟨⟨buildImageUrl_ok env slug url b fopt _ hs hu hf
      (Or.inr ⟨0, le_refl 0, rfl⟩), ?_⟩,
    ⟨buildImageUrl_ok env slug url b fopt _ hs hu hf
      (Or.inr ⟨100, by omega, rfl⟩), ?_⟩,
    fun n hn => buildImageUrl_negWidth env slug url b fopt n hn hs hu hf,
    buildImageUrl_nan env slug url b fopt hs hu hf⟩
  · intro hinf
    have hpos := countSub_pos_of_infix _ _ (by decide) hinf
    rw [countSub_width_zero_of_widthZero] at hpos
    omega
  · rw [builtUrl]
    rw [show widthPart (some (JNum.int 100)) = str ("&width=100") from by decide]
    exact List.IsSuffix.isInfix (suffix_append_of_suffix _ _ _ (by decide))

/-- C4 witness. -/
theorem c4_witness :
    buildImageUrl ⟨none, none⟩ (str ("p")) (str ("https://e.com/a.jpg"))
        ⟨none, none, some (JNum.int (-1))⟩ =
      Except.error (JsError.jsError (str ("Width must be a positive number."))) ∧
    buildImageUrl ⟨none, none⟩ (str ("p")) (str ("https://e.com/a.jpg"))
        ⟨none, none, some JNum.nan⟩ =
      Except.error (JsError.jsError (str ("Width must be a number."))) ∧
    buildImageUrl ⟨none, none⟩ (str ("p")) (str ("https://e.com/a.jpg"))
        ⟨none, none, some (JNum.int 0)⟩ =
      Except.ok (builtUrl (str ("p")) (str ("https://e.com/a.jpg")) none
        (some (JNum.int 0))) := by
  have h := c4_buildImageUrl_width_validation ⟨none, none⟩ (str ("p"))
    (str ("https://e.com/a.jpg")) none none (by decide) (by decide) (Or.inl rfl)
  exact ⟨h.2.2.1 (-1) (by omega), h.2.2.2, h.1.1⟩

/-- C5: absolute, protocol-relative and data URLs are not relative and
pass through `resolveUrl` unchanged for any base; a relative URL with an
available base resolves to the base with one trailing slash stripped,
concatenated with the url prefixed by `/` unless already so. -/
theorem c5_resolveUrl_passthrough_and_join (env : Env) (url : Str)
    (base : Option Str) (bb : Str) :
    (((str ("http://")).isPrefixOf url = true ∨
        (str ("https://")).isPrefixOf url = true ∨
        (str ("//")).isPrefixOf url = true ∨
        (str ("data:")).isPrefixOf url = true) →
      isRelativeUrl url = false ∧
        ∀ anyBase : Option Str, resolveUrl env url anyBase = Except.ok url) ∧
    (isRelativeUrl url = true → effectiveBase env base = some bb → bb ≠ [] →
      resolveUrl env url base =
        Except.ok ((if bb.getLast? = some '/' then bb.dropLast else bb) ++
          (if url.head? = some '/' then url else '/' :: url))) := by
  constructor
  · intro h
    have hrel : isRelativeUrl url = false := by
      unfold isRelativeUrl
      split_ifs with h1 h2 h3
      · rfl
      · rfl
      · rfl
      · simp only [Bool.or_eq_true, not_or] at h2
        rcases h with h | h | h | h
        · exact absurd h h2.1
        · exact absurd h h2.2
        · exact absurd h h1
        · exact absurd h h3
    exact ⟨hrel, fun anyBase => resolveUrl_absolute env url anyBase hrel⟩
  · intro hrel heff hbb
    rw [resolveUrl, if_neg (by simp [hrel]), heff]
    show (if bb = [] then Except.error (JsError.jsError (cannotResolveMsg url))
      else Except.ok (stripTrailingSlash bb ++
        (if url.head? = some '/' then url else '/' :: url))) = _
    rw [if_neg hbb]
    rfl

/-- C5 witness. -/
theorem c5_witness :
    resolveUrl ⟨none, none⟩ (str ("https://y.com/a.jpg"))
      (some (str ("https://x.com"))) = Except.ok (str ("https://y.com/a.jpg")) ∧
    resolveUrl ⟨none, none⟩ (str ("/a/b.jpg")) (some (str ("https://x.com/"))) =
      Except.ok (str ("https://x.com/a/b.jpg")) := by
  constructor
  · exact ((c5_resolveUrl_passthrough_and_join ⟨none, none⟩
      (str ("https://y.com/a.jpg")) none []).1
      (Or.inr (Or.inl (by decide)))).2 (some (str ("https://x.com")))
  · have h := (c5_resolveUrl_passthrough_and_join ⟨none, none⟩ (str ("/a/b.jpg"))
      (some (str ("https://x.com/"))) (str ("https://x.com/"))).2
      (by decide) rfl (by decide)
    have hx : ((if (str ("https://x.com/")).getLast? = some '/' then
        (str ("https://x.com/")).dropLast else str ("https://x.com/")) ++
        (if (str ("/a/b.jpg")).head? = some '/' then str ("/a/b.jpg")
          else '/' :: str ("/a/b.jpg"))) = str ("https://x.com/a/b.jpg") := by
      decide
    rw [hx] at h
    exact h

set_option maxRecDepth 4000 in
/-- C6: a relative URL with no base argument, no configured base and no
browser origin fails with the cannot-resolve error, whose message carries
the offending URL and the remediation guidance; `buildImageUrl`
propagates that failure unchanged. -/
theorem c6_unresolvable_relative_url (env : Env) (url slug : Str)
    (fopt : Option Str) (wopt : Option JNum)
    (hrel : isRelativeUrl url = true)
    (hcfg : env.configBaseUrl = none)
    (hbro : getBrowserBaseUrl env = none) :
    resolveUrl env url none =
      Except.error (JsError.jsError (cannotResolveMsg url)) ∧
    url <:+: cannotResolveMsg url ∧
    str ("Please configure a baseUrl using configure(") <:+: cannotResolveMsg url ∧
    str ("or pass baseUrl in options") <:+: cannotResolveMsg url ∧
    str ("In browser environments, this is auto-detected from window.location.origin.")
      <:+: cannotResolveMsg url ∧
    (slug ≠ [] → url ≠ [] →
      buildImageUrl env slug url ⟨none, fopt, wopt⟩ =
        Except.error (JsError.jsError (cannotResolveMsg url))) := by
  have heff : effectiveBase env none = none := by
    simp [effectiveBase, jsCoalesce, hcfg, hbro]
  have hres : resolveUrl env url none =
      Except.error (JsError.jsError (cannotResolveMsg url)) := by
    rw [resolveUrl, if_neg (by simp [hrel]), heff]
  have hsufB : str ("\". Please configure a baseUrl using configure(\x7b baseUrl: \x27...\x27 \x7d) or pass baseUrl in options. In browser environments, this is auto-detected from window.location.origin.")
      <:+ cannotResolveMsg url := ⟨str ("Cannot resolve relative URL \"") ++ url, rfl⟩
  refine ⟨hres, ⟨str ("Cannot resolve relative URL \""),
    str ("\". Please configure a baseUrl using configure(\x7b baseUrl: \x27...\x27 \x7d) or pass baseUrl in options. In browser environments, this is auto-detected from window.location.origin."),
    rfl⟩, ?_, ?_, ?_, ?_⟩
  · exact List.IsInfix.trans (by decide) hsufB.isInfix
  · exact List.IsInfix.trans (by decide) hsufB.isInfix
  · exact List.IsInfix.trans (by decide) hsufB.isInfix
  · intro hs hu
    exact buildImageUrl_resolveError env slug url ⟨none, fopt, wopt⟩ _ hs hu hres

/-- C6 witness. -/
theorem c6_witness :
    resolveUrl ⟨none, none⟩ (str ("/a.jpg")) none =
      Except.error (JsError.jsError (cannotResolveMsg (str ("/a.jpg")))) ∧
    buildImageUrl ⟨none, none⟩ (str ("p")) (str ("/a.jpg")) ⟨none, none, none⟩ =
      Except.error (JsError.jsError (cannotResolveMsg (str ("/a.jpg")))) := by
  have h := c6_unresolvable_relative_url ⟨none, none⟩ (str ("/a.jpg")) (str ("p"))
    none none (by decide) rfl rfl
  exact ⟨h.1, h.2.2.2.2.2 (by decide) (by decide)⟩

/-- C10: an empty-string baseUrl override shadows both the global
configuration and the browser origin, and is itself rejected, so
`resolveUrl` fails with the cannot-resolve error for every relative URL
and every environment. -/
theorem c10_empty_baseUrl_shadows (env : Env) (url : Str)
    (hrel : isRelativeUrl url = true) :
    resolveUrl env url (some []) =
      Except.error (JsError.jsError (cannotResolveMsg url)) := by
  rw [resolveUrl, if_neg (by simp [hrel])]
  rw [show effectiveBase env (some []) = some [] from rfl]
  rfl

/-- C10 witness: the failure happens even with a configured global base
and an available browser origin. -/
theorem c10_witness :
    resolveUrl ⟨some (str ("https://configured.example")),
        some (str ("https://browser.example"))⟩ (str ("/a.jpg")) (some []) =
      Except.error (JsError.jsError (cannotResolveMsg (str ("/a.jpg")))) :=
  c10_empty_baseUrl_shadows
    ⟨some (str ("https://configured.example")), some (str ("https://browser.example"))⟩
    (str ("/a.jpg")) (by decide)

/-- C8: `getConfig` never modifies the stored configuration; two
consecutive calls return value-equal but identity-distinct frozen
snapshots, and attempting to mutate a returned snapshot never affects
the stored state observed by later reads. -/
theorem c8_getConfig_snapshots (s : ConfigState) (v : PixelPuppyConfig) :
    (getConfig s).1.globalConfig = s.globalConfig ∧
    (getConfig (getConfig s).1).1.globalConfig = s.globalConfig ∧
    (getConfig s).2 ≠ (getConfig (getConfig s).1).2 ∧
    readRef (getConfig (getConfig s).1).1 (getConfig s).2 = some s.globalConfig ∧
    readRef (getConfig (getConfig s).1).1 (getConfig (getConfig s).1).2 =
      some s.globalConfig ∧
    writeRef (getConfig s).1 (getConfig s).2 v = (getConfig s).1 ∧
    (getConfig (writeRef (getConfig s).1 (getConfig s).2 v)).1.globalConfig =
      s.globalConfig := by
  have hget1 : (getConfig s).1.objects[(getConfig s).2]? =
      some (⟨s.globalConfig, true⟩ : HeapObj) := by
    show (s.objects ++ [(⟨s.globalConfig, true⟩ : HeapObj)])[s.objects.length]? = _
    rw [List.getElem?_append_right (Nat.le_refl _)]
    simp
  have hw : writeRef (getConfig s).1 (getConfig s).2 v = (getConfig s).1 := by
    rw [writeRef, hget1]
    rfl
  have hr1 : readRef (getConfig (getConfig s).1).1 (getConfig s).2 =
      some s.globalConfig := by
    rw [readRef]
    have hg : (getConfig (getConfig s).1).1.objects[(getConfig s).2]? =
        some (⟨s.globalConfig, true⟩ : HeapObj) := by
      show ((s.objects ++ [(⟨s.globalConfig, true⟩ : HeapObj)]) ++
        [(⟨s.globalConfig, true⟩ : HeapObj)])[s.objects.length]? = _
      rw [List.getElem?_append, if_pos (by simp)]
      exact hget1
    rw [hg]
    rfl
  have hr2 : readRef (getConfig (getConfig s).1).1 (getConfig (getConfig s).1).2 =
      some s.globalConfig := by
    rw [readRef]
    have hg : (getConfig (getConfig s).1).1.objects[(getConfig (getConfig s).1).2]? =
        some (⟨s.globalConfig, true⟩ : HeapObj) := by
      show ((s.objects ++ [(⟨s.globalConfig, true⟩ : HeapObj)]) ++
        [(⟨s.globalConfig, true⟩ : HeapObj)])[(s.objects ++
          [(⟨s.globalConfig, true⟩ : HeapObj)]).length]? = _
      rw [List.getElem?_append_right (Nat.le_refl _)]
      simp
    rw [hg]
    rfl
  refine ⟨rfl, ?_, ?_, hr1, hr2, hw, ?_⟩
  · rfl
  · show s.objects.length ≠ (s.objects ++ [(⟨s.globalConfig, true⟩ : HeapObj)]).length
    simp
  · rw [hw]
    rfl

theorem responsive_not_false {ropt : Option Bool} (hr : ropt ≠ some false) :
    ¬ (ropt.getD true = false) := by
  match ropt with
  | none => simp
  | some true => simp
  | some false => exact absurd rfl hr

/-- C9: a width of 0 is treated as absent: the default strategy is
selected, producing `sizes = "100vw"`, no width field, and a srcSet over
the sorted device breakpoints only. -/
theorem c9_width_zero_default_strategy (env : Env) (p s : Str)
    (b f : Option Str) (dev img : Option (List Int)) (ropt : Option Bool)
    (attrs : ResponsiveImageAttributes)
    (hr : ropt ≠ some false)
    (hok : getResponsiveImageAttributes env p s
      ⟨b, dev, f, img, ropt, none, some (JNum.int 0)⟩ = Except.ok attrs) :
    attrs.sizes = some (str ("100vw")) ∧
    attrs.width = none ∧
    ∃ entries : List Str,
      mapEntries env p s b f (sortInts (dev.getD defaultDeviceBreakpoints)) =
        Except.ok entries ∧
      attrs.srcSet = joinCommaSpace entries ∧
      entries = (sortInts (dev.getD defaultDeviceBreakpoints)).map
        (fun w => urlOf env p s b f w ++ [' '] ++ intToStr w ++ ['w']) := by
  rw [getResponsiveImageAttributes] at hok
  dsimp only at hok
  rw [if_neg (responsive_not_false hr)] at hok
  rw [if_neg (by decide : ¬ sizesTruthy none = true)] at hok
  rw [if_neg (by decide : ¬ jnumTruthy (some (JNum.int 0)) = true)] at hok
  cases hm : mapEntries env p s b f (sortInts (dev.getD defaultDeviceBreakpoints)) with
  | error e =>
    rw [hm] at hok
    exact absurd hok (by simp)
  | ok entries =>
    rw [hm] at hok
    cases hfb : buildImageUrl env p s
        ⟨b, f, (sortInts (dev.getD defaultDeviceBreakpoints)).head?.map JNum.int⟩ with
    | error e =>
      rw [hfb] at hok
      exact absurd hok (by simp)
    | ok fb =>
      rw [hfb] at hok
      injection hok with hok
      subst hok
      exact ⟨rfl, rfl, entries, rfl, rfl, (mapEntries_ok env p s b f _ entries hm).1⟩

/-- C9 witness. -/
theorem c9_witness :
    ∃ attrs : ResponsiveImageAttributes,
      getResponsiveImageAttributes ⟨none, none⟩ (str ("p"))
        (str ("https://e.com/a.jpg"))
        ⟨none, none, none, none, none, none, some (JNum.int 0)⟩ =
          Except.ok attrs ∧
      attrs.sizes = some (str ("100vw")) ∧ attrs.width = none := by
  refine ⟨_, rfl, ?_⟩
  have h := c9_width_zero_default_strategy ⟨none, none⟩ (str ("p"))
    (str ("https://e.com/a.jpg")) none none none none none _ (by simp) rfl
  exact ⟨h.1, h.2.1⟩

theorem mem_uniqueBreakpointsOf (dev img : List Int) (n : Int) (hn : n ≠ 0)
    (x : Int) :
    x ∈ uniqueBreakpointsOf dev img (some (JNum.int n)) ↔
      (x ∈ dev ∨ x ∈ img ∨ x = n ∨ x = n * 2) := by
  rw [uniqueBreakpointsOf, mem_sortDedup, candidateBreakpoints, widthExtraOf,
    if_pos hn]
  simp [List.mem_append, or_assoc]

theorem uniqueBreakpointsOf_strict (dev img : List Int) (wopt : Option JNum) :
    (uniqueBreakpointsOf dev img wopt).Pairwise (· < ·) :=
  sortDedup_strict _

/-- C2: the width-based strategy echoes the width, uses the fixed fluid
sizes rule, builds the fallback src from the given width, and emits one
ascending srcSet entry per element of the deduplicated union of device
breakpoints, image breakpoints, width and width*2, unfiltered. -/
theorem c2_width_strategy (env : Env) (p s : Str) (b f : Option Str)
    (dev img : Option (List Int)) (ropt : Option Bool) (n : Int)
    (attrs : ResponsiveImageAttributes)
    (hn : 0 < n) (hr : ropt ≠ some false)
    (hok : getResponsiveImageAttributes env p s
      ⟨b, dev, f, img, ropt, none, some (JNum.int n)⟩ = Except.ok attrs) :
    attrs.width = some (JNum.int n) ∧
    attrs.sizes = some (str ("(min-width: 1024px) 1024px, 100vw")) ∧
    buildImageUrl env p s ⟨b, f, some (JNum.int n)⟩ = Except.ok attrs.src ∧
    ∃ entries : List Str,
      (uniqueBreakpointsOf (dev.getD defaultDeviceBreakpoints)
        (img.getD defaultImageBreakpoints) (some (JNum.int n))).Pairwise (· < ·) ∧
      (∀ x : Int, x ∈ uniqueBreakpointsOf (dev.getD defaultDeviceBreakpoints)
          (img.getD defaultImageBreakpoints) (some (JNum.int n)) ↔
        (x ∈ dev.getD defaultDeviceBreakpoints ∨
          x ∈ img.getD defaultImageBreakpoints ∨ x = n ∨ x = n * 2)) ∧
      mapEntries env p s b f (uniqueBreakpointsOf (dev.getD defaultDeviceBreakpoints)
        (img.getD defaultImageBreakpoints) (some (JNum.int n))) =
          Except.ok entries ∧
      attrs.srcSet = joinCommaSpace entries ∧
      entries = (uniqueBreakpointsOf (dev.getD defaultDeviceBreakpoints)
        (img.getD defaultImageBreakpoints) (some (JNum.int n))).map
          (fun w => urlOf env p s b f w ++ [' '] ++ intToStr w ++ ['w']) := by
  rw [getResponsiveImageAttributes] at hok
  dsimp only at hok
  rw [if_neg (responsive_not_false hr)] at hok
  rw [if_neg (by decide : ¬ sizesTruthy none = true)] at hok
  rw [if_pos (show jnumTruthy (some (JNum.int n)) = true by
    simp [jnumTruthy]
    omega)] at hok
  cases hm : mapEntries env p s b f (uniqueBreakpointsOf
      (dev.getD defaultDeviceBreakpoints) (img.getD defaultImageBreakpoints)
      (some (JNum.int n))) with
  | error e =>
    rw [hm] at hok
    exact absurd hok (by simp)
  | ok entries =>
    rw [hm] at hok
    cases hfb : buildImageUrl env p s ⟨b, f, some (JNum.int n)⟩ with
    | error e =>
      rw [hfb] at hok
      exact absurd hok (by simp)
    | ok fb =>
      rw [hfb] at hok
      injection hok with hok
      subst hok
      refine ⟨rfl, rfl, rfl, entries, uniqueBreakpointsOf_strict _ _ _,
        fun x => mem_uniqueBreakpointsOf _ _ n (by omega) x, rfl, rfl,
        (mapEntries_ok env p s b f _ entries hm).1⟩

/-- C2 witness. -/
theorem c2_witness :
    ∃ attrs : ResponsiveImageAttributes,
      getResponsiveImageAttributes ⟨none, none⟩ (str ("p"))
        (str ("https://e.com/a.jpg"))
        ⟨none, none, none, none, none, none, some (JNum.int 800)⟩ =
          Except.ok attrs ∧
      attrs.width = some (JNum.int 800) ∧
      attrs.sizes = some (str ("(min-width: 1024px) 1024px, 100vw")) := by
  refine ⟨_, rfl, ?_⟩
  have h := c2_width_strategy ⟨none, none⟩ (str ("p"))
    (str ("https://e.com/a.jpg")) none none none none none 800 _ (by omega)
    (by simp) rfl
  exact ⟨h.1, h.2.1⟩

theorem dyadic_shift (n d : Nat) (e : Int) :
    dyadic (n * 2 ^ d) e = dyadic n (e + d) := by
  by_cases h : 0 ≤ e
  · rw [dyadic, if_pos h, dyadic, if_pos (by omega)]
    have hexp : (e + d).toNat = e.toNat + d := by omega
    rw [hexp, pow_add]
    push_cast
    ring
  · by_cases h2 : 0 ≤ e + d
    · rw [dyadic, if_neg h, dyadic, if_pos h2]
      rw [div_eq_iff (by positivity)]
      have hpow : (2 : Rat) ^ d = 2 ^ ((e + d).toNat + (-e).toNat) := by
        congr 1
        omega
      push_cast
      rw [hpow, pow_add]
      ring
    · rw [dyadic, if_neg h, dyadic, if_neg h2]
      rw [div_eq_div_iff (by positivity) (by positivity)]
      have hexp : d + (-(e + d)).toNat = (-e).toNat := by omega
      rw [← hexp, pow_add]
      push_cast
      ring

theorem dyadic_le_dyadic (n m : Nat) (e : Int) :
    dyadic n e ≤ dyadic m e ↔ n ≤ m := by
  by_cases h : 0 ≤ e
  · rw [dyadic, if_pos h, dyadic, if_pos h,
      mul_le_mul_right (by positivity : (0 : Rat) < 2 ^ e.toNat)]
    exact_mod_cast Iff.rfl
  · rw [dyadic, if_neg h, dyadic, if_neg h,
      div_le_div_iff_of_pos_right (by positivity : (0 : Rat) < 2 ^ (-e).toNat)]
    exact_mod_cast Iff.rfl

theorem dyLe_iff (x y : Dy) : dyLe x y = true ↔ x.toRat ≤ y.toRat := by
  obtain ⟨xn, xe⟩ := x
  obtain ⟨yn, ye⟩ := y
  rw [dyLe, decide_eq_true_eq]
  show xn * 2 ^ (xe - ye).toNat ≤ yn * 2 ^ (ye - xe).toNat ↔
    dyadic xn xe ≤ dyadic yn ye
  rcases le_total xe ye with h | h
  · have h0 : (xe - ye).toNat = 0 := by omega
    rw [h0, pow_zero, mul_one]
    generalize hdd : (ye - xe).toNat = d
    rw [show ye = xe + (d : Int) from by omega, ← dyadic_shift,
      dyadic_le_dyadic]
  · have h0 : (ye - xe).toNat = 0 := by omega
    rw [h0, pow_zero, mul_one]
    generalize hdd : (xe - ye).toNat = d
    rw [show xe = ye + (d : Int) from by omega, ← dyadic_shift,
      dyadic_le_dyadic]

theorem survivesVw_iff (m : Nat) (bp : Int) :
    survivesVw m bp = true ↔
      (0 ≤ bp ∧ (jsMinImageWidth m).toRat ≤ (roundFloatNat bp.toNat).toRat) := by
  rw [survivesVw]
  by_cases hbp : bp < 0
  · rw [if_pos hbp]
    simp only [Bool.false_eq_true, false_iff, not_and]
    intro h
    omega
  · rw [if_neg hbp, dyLe_iff]
    constructor
    · intro h
      exact ⟨by omega, h⟩
    · intro h
      exact h.2

theorem mem_widthExtraOf (wopt : Option JNum) (x : Int)
    (hw : wopt = none ∨ ∃ n : Int, 0 < n ∧ wopt = some (JNum.int n)) :
    x ∈ widthExtraOf wopt ↔
      (∃ n : Int, 0 < n ∧ wopt = some (JNum.int n) ∧ (x = n ∨ x = n * 2)) := by
  rcases hw with rfl | ⟨n, hn, rfl⟩
  · simp [widthExtraOf]
  · rw [widthExtraOf, if_pos (by omega)]
    constructor
    · intro hx
      rcases List.mem_cons.mp hx with h1 | hx
      · exact ⟨n, hn, rfl, Or.inl h1⟩
      · simp only [List.mem_singleton] at hx
        exact ⟨n, hn, rfl, Or.inr hx⟩
    · rintro ⟨n', hn', heq, hx⟩
      injection heq with heq
      injection heq with heq
      subst heq
      rcases hx with rfl | rfl
      · exact List.mem_cons_self _ _
      · simp

/-- Membership in the filtered sizes-strategy breakpoint list. -/
theorem mem_filteredBreakpointsOf (sz : Str) (dev img : List Int)
    (wopt : Option JNum) (x : Int)
    (hw : wopt = none ∨ ∃ n : Int, 0 < n ∧ wopt = some (JNum.int n)) :
    x ∈ filteredBreakpointsOf sz (uniqueBreakpointsOf dev img wopt) ↔
      ((x ∈ dev ∨ x ∈ img ∨
          (∃ n : Int, 0 < n ∧ wopt = some (JNum.int n) ∧ (x = n ∨ x = n * 2))) ∧
        (∀ m : Nat, parseSmallestVw sz = some m →
          0 ≤ x ∧ (jsMinImageWidth m).toRat ≤ (roundFloatNat x.toNat).toRat)) := by
  have hub : x ∈ uniqueBreakpointsOf dev img wopt ↔
      (x ∈ dev ∨ x ∈ img ∨
        (∃ n : Int, 0 < n ∧ wopt = some (JNum.int n) ∧ (x = n ∨ x = n * 2))) := by
    rw [uniqueBreakpointsOf, mem_sortDedup, candidateBreakpoints]
    simp only [List.mem_append, or_assoc, mem_widthExtraOf wopt x hw]
  rw [filteredBreakpointsOf]
  cases hvw : parseSmallestVw sz with
  | none =>
    rw [hub]
    constructor
    · intro h
      exact ⟨h, by intro m hm; exact absurd hm (by simp)⟩
    · intro h
      exact h.1
  | some m =>
    rw [List.mem_filter, hub, survivesVw_iff]
    constructor
    · intro ⟨h1, h2⟩
      refine ⟨h1, ?_⟩
      intro m' hm'
      injection hm' with hm'
      subst hm'
      exact h2
    · intro ⟨h1, h2⟩
      exact ⟨h1, h2 m rfl⟩

theorem filteredBreakpointsOf_strict (sz : Str) (dev img : List Int)
    (wopt : Option JNum) :
    (filteredBreakpointsOf sz (uniqueBreakpointsOf dev img wopt)).Pairwise
      (· < ·) := by
  rw [filteredBreakpointsOf]
  cases parseSmallestVw sz with
  | none => exact uniqueBreakpointsOf_strict dev img wopt
  | some m =>
    exact List.Pairwise.sublist (List.filter_sublist _)
      (uniqueBreakpointsOf_strict dev img wopt)

set_option maxRecDepth 100000 in
/-- C1 counterexample: with sizes `"415vw"` the exact-arithmetic
criterion keeps a candidate of 1992 (the exact threshold is 1992), but
the program computes the threshold in doubles as slightly more than
1992 and drops it: with `deviceBreakpoints [1992]` the srcSet comes out
empty, so the claim as stated is false of the code. -/
theorem c1_counterexample :
    parseSmallestVw (str ("415vw")) = some 415 ∧
    (480 : Rat) * (((415 : Nat) : Rat) / 100) ≤ ((1992 : Int) : Rat) ∧
    (1992 : Rat) < (jsMinImageWidth 415).toRat ∧
    survivesVw 415 1992 = false ∧
    (∃ attrs : ResponsiveImageAttributes,
      getResponsiveImageAttributes ⟨none, none⟩ (str ("p"))
        (str ("https://e.com/a.jpg"))
        ⟨none, some [1992], none, some [], none, some (str ("415vw")), none⟩ =
          Except.ok attrs ∧
      attrs.srcSet = []) := by
  refine ⟨rfl, by norm_num, ?_, by decide, ⟨_, rfl, rfl⟩⟩
  have heval : jsMinImageWidth 415 = ⟨8760908650119169, -42⟩ := by decide
  rw [heval, Dy.toRat, dyadic, if_neg (by norm_num)]
  rw [lt_div_iff₀ (by positivity)]
  norm_num
  rw [show Int.toNat 42 = 42 from rfl]
  norm_num

/-- C1 (amended): the sizes-based strategy echoes the sizes string,
omits the width field, and emits one ascending srcSet entry per
surviving breakpoint, where the candidates are the deduplicated union of
device breakpoints, image breakpoints and (for a given width) width and
width*2, a candidate survives exactly when its double value is at least
the IEEE-754 double-precision evaluation of
`480 * (minimum vw value / 100)` — which can differ from the exact
value at integer boundaries — and no vw token keeps the whole set. -/
theorem c1_sizes_strategy (env : Env) (p s : Str) (b f : Option Str)
    (dev img : Option (List Int)) (ropt : Option Bool) (wopt : Option JNum)
    (sz : Str) (attrs : ResponsiveImageAttributes)
    (hw : wopt = none ∨ ∃ n : Int, 0 < n ∧ wopt = some (JNum.int n))
    (hr : ropt ≠ some false) (hsz : sz ≠ [])
    (hok : getResponsiveImageAttributes env p s
      ⟨b, dev, f, img, ropt, some sz, wopt⟩ = Except.ok attrs) :
    attrs.sizes = some sz ∧
    attrs.width = none ∧
    ∃ entries : List Str,
      (filteredBreakpointsOf sz (uniqueBreakpointsOf
        (dev.getD defaultDeviceBreakpoints) (img.getD defaultImageBreakpoints)
        wopt)).Pairwise (· < ·) ∧
      (∀ x : Int, x ∈ filteredBreakpointsOf sz (uniqueBreakpointsOf
          (dev.getD defaultDeviceBreakpoints) (img.getD defaultImageBreakpoints)
          wopt) ↔
        ((x ∈ dev.getD defaultDeviceBreakpoints ∨
            x ∈ img.getD defaultImageBreakpoints ∨
            (∃ n : Int, 0 < n ∧ wopt = some (JNum.int n) ∧
              (x = n ∨ x = n * 2))) ∧
          (∀ m : Nat, parseSmallestVw sz = some m →
            0 ≤ x ∧ (jsMinImageWidth m).toRat ≤
              (roundFloatNat x.toNat).toRat))) ∧
      (parseSmallestVw sz = none →
        filteredBreakpointsOf sz (uniqueBreakpointsOf
          (dev.getD defaultDeviceBreakpoints) (img.getD defaultImageBreakpoints)
          wopt) = uniqueBreakpointsOf (dev.getD defaultDeviceBreakpoints)
            (img.getD defaultImageBreakpoints) wopt) ∧
      mapEntries env p s b f (filteredBreakpointsOf sz (uniqueBreakpointsOf
        (dev.getD defaultDeviceBreakpoints) (img.getD defaultImageBreakpoints)
        wopt)) = Except.ok entries ∧
      attrs.srcSet = joinCommaSpace entries ∧
      entries = (filteredBreakpointsOf sz (uniqueBreakpointsOf
        (dev.getD defaultDeviceBreakpoints) (img.getD defaultImageBreakpoints)
        wopt)).map (fun w => urlOf env p s b f w ++ [' '] ++ intToStr w ++ ['w']) := by
  rw [getResponsiveImageAttributes] at hok
  dsimp only at hok
  rw [if_neg (responsive_not_false hr)] at hok
  rw [if_pos (show sizesTruthy (some sz) = true by simp [sizesTruthy, hsz])] at hok
  rw [show Option.getD (some sz) [] = sz from rfl] at hok
  cases hm : mapEntries env p s b f (filteredBreakpointsOf sz
      (uniqueBreakpointsOf (dev.getD defaultDeviceBreakpoints)
        (img.getD defaultImageBreakpoints) wopt)) with
  | error e =>
    rw [hm] at hok
    exact absurd hok (by simp)
  | ok entries =>
    rw [hm] at hok
    cases hfb : buildImageUrl env p s ⟨b, f,
        (jsOrNum (filteredBreakpointsOf sz (uniqueBreakpointsOf
          (dev.getD defaultDeviceBreakpoints) (img.getD defaultImageBreakpoints)
          wopt)).head? (uniqueBreakpointsOf (dev.getD defaultDeviceBreakpoints)
            (img.getD defaultImageBreakpoints) wopt).head?).map JNum.int⟩ with
    | error e =>
      rw [hfb] at hok
      exact absurd hok (by simp)
    | ok fb =>
      rw [hfb] at hok
      injection hok with hok
      subst hok
      refine ⟨rfl, rfl, entries, filteredBreakpointsOf_strict sz _ _ wopt,
        fun x => mem_filteredBreakpointsOf sz _ _ wopt x hw, ?_, rfl, rfl,
        (mapEntries_ok env p s b f _ entries hm).1⟩
      intro hnone
      rw [filteredBreakpointsOf, hnone]

set_option maxRecDepth 100000 in
/-- C1 witness. -/
theorem c1_witness :
    ∃ attrs : ResponsiveImageAttributes,
      getResponsiveImageAttributes ⟨none, none⟩ (str ("p"))
        (str ("https://e.com/a.jpg"))
        ⟨none, none, none, none, none,
          some (str ("(min-width: 768px) 50vw, 100vw")), some (JNum.int 800)⟩ =
          Except.ok attrs ∧
      attrs.sizes = some (str ("(min-width: 768px) 50vw, 100vw")) ∧
      attrs.width = none := by
  refine ⟨_, rfl, ?_⟩
  have h := c1_sizes_strategy ⟨none, none⟩ (str ("p"))
    (str ("https://e.com/a.jpg")) none none none none none
    (some (JNum.int 800)) (str ("(min-width: 768px) 50vw, 100vw")) _
    (Or.inr ⟨800, by omega, rfl⟩) (by simp) (by decide) rfl
  exact ⟨h.1, h.2.1⟩

/-- If `buildImageUrl` succeeds with no width, the same call with a
negative width fails with the positive-number message. -/
theorem buildImageUrl_neg_of_ok_none (env : Env) (slug url : Str)
    (b f : Option Str) (u : Str)
    (h : buildImageUrl env slug url ⟨b, f, none⟩ = Except.ok u)
    (n : Int) (hn : n < 0) :
    buildImageUrl env slug url ⟨b, f, some (JNum.int n)⟩ =
      Except.error (JsError.jsError (str ("Width must be a positive number."))) := by
  by_cases hs : slug = []
  · subst hs
    rw [buildImageUrl_empty_slug] at h
    exact absurd h (by simp)
  · by_cases hu : url = []
    · subst hu
      rw [buildImageUrl_empty_src env slug hs] at h
      exact absurd h (by simp)
    · rw [buildImageUrl, if_neg hs, if_neg hu] at h ⊢
      dsimp only at h ⊢
      cases hres : resolveUrl env url b with
      | error e' =>
        rw [hres] at h
        exact absurd h (by simp)
      | ok r =>
        rw [hres] at h
        have h' : buildImageUrlResolved slug r f none = Except.ok u := h
        show buildImageUrlResolved slug r f (some (JNum.int n)) = _
        rw [buildImageUrlResolved] at h' ⊢
        by_cases hfmt : jsOrStr f (str ("webp")) ≠ str ("webp") ∧
            jsOrStr f (str ("webp")) ≠ str ("png")
        · rw [if_pos hfmt] at h'
          exact absurd h' (by simp)
        · rw [if_neg hfmt]
          rw [if_neg (by simp [jsIsNaN])]
          rw [if_pos (by simp [jnumTruthy, jnumLe0]; omega)]

/-- C7 (amended): a `buildImageUrl` failure that does not depend on the
width — empty project, empty source URL, failed resolution or invalid
format — propagates unchanged out of `getResponsiveImageAttributes` in
every strategy; in responsive mode with no sizes, a negative width fails
with the positive-number message (raised for the smallest candidate);
but a NaN width is falsy, so outside non-responsive mode it selects the
default strategy instead of failing. -/
theorem c7_error_propagation (env : Env) (p s : Str)
    (o : ResponsiveImageOptions) (e : JsError) (u : Str) (n : Int) :
    (buildImageUrl env p s ⟨o.baseUrl, o.format, none⟩ = Except.error e →
      getResponsiveImageAttributes env p s o = Except.error e) ∧
    (buildImageUrl env p s ⟨o.baseUrl, o.format, none⟩ = Except.ok u →
      o.width = some (JNum.int n) → n < 0 → sizesTruthy o.sizes = false →
      o.responsive ≠ some false →
      getResponsiveImageAttributes env p s o =
        Except.error (JsError.jsError (str ("Width must be a positive number.")))) := by
  constructor
  · intro h
    have hall : ∀ w' : Option JNum,
        buildImageUrl env p s ⟨o.baseUrl, o.format, w'⟩ = Except.error e :=
      buildImageUrl_error_width_independent env p s o.baseUrl o.format e h
    rw [getResponsiveImageAttributes]
    dsimp only
    by_cases hresp : o.responsive.getD true = false
    · rw [if_pos hresp, hall o.width]
    · rw [if_neg hresp]
      by_cases hst : sizesTruthy o.sizes = true
      · rw [if_pos hst]
        cases hfl : filteredBreakpointsOf (o.sizes.getD [])
            (uniqueBreakpointsOf (o.deviceBreakpoints.getD defaultDeviceBreakpoints)
              (o.imageBreakpoints.getD defaultImageBreakpoints) o.width) with
        | nil =>
          rw [show mapEntries env p s o.baseUrl o.format [] = Except.ok []
            from rfl]
          rw [hall _]
        | cons w ws =>
          rw [mapEntries_cons_error env p s o.baseUrl o.format w ws e
            (hall (some (JNum.int w)))]
      · rw [if_neg hst]
        by_cases htr : jnumTruthy o.width = true
        · rw [if_pos htr]
          cases hub : uniqueBreakpointsOf
              (o.deviceBreakpoints.getD defaultDeviceBreakpoints)
              (o.imageBreakpoints.getD defaultImageBreakpoints) o.width with
          | nil =>
            rw [show mapEntries env p s o.baseUrl o.format [] = Except.ok []
              from rfl]
            rw [hall o.width]
          | cons w ws =>
            rw [mapEntries_cons_error env p s o.baseUrl o.format w ws e
              (hall (some (JNum.int w)))]
        · rw [if_neg htr]
          cases hsb : sortInts (o.deviceBreakpoints.getD defaultDeviceBreakpoints) with
          | nil =>
            rw [show mapEntries env p s o.baseUrl o.format [] = Except.ok []
              from rfl]
            rw [hall _]
          | cons w ws =>
            rw [mapEntries_cons_error env p s o.baseUrl o.format w ws e
              (hall (some (JNum.int w)))]
  · intro h hwidth hn hst hresp
    rw [getResponsiveImageAttributes]
    dsimp only
    rw [if_neg (responsive_not_false hresp)]
    rw [if_neg (by rw [hst]; simp)]
    rw [if_pos (by rw [hwidth]; simp [jnumTruthy]; omega)]
    have hmem : n * 2 ∈ uniqueBreakpointsOf
        (o.deviceBreakpoints.getD defaultDeviceBreakpoints)
        (o.imageBreakpoints.getD defaultImageBreakpoints) o.width := by
      rw [hwidth]
      exact (mem_uniqueBreakpointsOf _ _ n (by omega) (n * 2)).mpr
        (Or.inr (Or.inr (Or.inr rfl)))
    cases hub : uniqueBreakpointsOf
        (o.deviceBreakpoints.getD defaultDeviceBreakpoints)
        (o.imageBreakpoints.getD defaultImageBreakpoints) o.width with
    | nil =>
      rw [hub] at hmem
      exact absurd hmem (by simp)
    | cons w ws =>
      rw [hub] at hmem
      have hstrict := uniqueBreakpointsOf_strict
        (o.deviceBreakpoints.getD defaultDeviceBreakpoints)
        (o.imageBreakpoints.getD defaultImageBreakpoints) o.width
      rw [hub] at hstrict
      have hw0 : w < 0 := by
        rcases List.mem_cons.mp hmem with heq | hmemws
        · omega
        · have := (List.pairwise_cons.mp hstrict).1 (n * 2) hmemws
          omega
      rw [mapEntries_cons_error env p s o.baseUrl o.format w ws _
        (buildImageUrl_neg_of_ok_none env p s o.baseUrl o.format u h w hw0)]

/-- C7 counterexample: a NaN width makes `buildImageUrl` fail, yet
`getResponsiveImageAttributes` (responsive mode) succeeds, so the
original claim is false as stated. -/
theorem c7_counterexample :
    buildImageUrl ⟨none, none⟩ (str ("p")) (str ("https://e.com/a.jpg"))
        ⟨none, none, some JNum.nan⟩ =
      Except.error (JsError.jsError (str ("Width must be a number."))) ∧
    ∃ attrs : ResponsiveImageAttributes,
      getResponsiveImageAttributes ⟨none, none⟩ (str ("p"))
        (str ("https://e.com/a.jpg"))
        ⟨none, none, none, none, none, none, some JNum.nan⟩ =
          Except.ok attrs :=
  ⟨rfl, ⟨_, rfl⟩⟩

/-- C7 witness. -/
theorem c7_witness :
    getResponsiveImageAttributes ⟨none, none⟩ (str ("p"))
        (str ("https://e.com/a.jpg"))
        ⟨none, none, some (str ("jpeg")), none, none, none, none⟩ =
      Except.error (JsError.jsError
        (str ("Invalid format. Supported formats are webp and png."))) ∧
    getResponsiveImageAttributes ⟨none, none⟩ (str ("p"))
        (str ("https://e.com/a.jpg"))
        ⟨none, none, none, none, none, none, some (JNum.int (-5))⟩ =
      Except.error (JsError.jsError (str ("Width must be a positive number."))) := by
  constructor
  · exact (c7_error_propagation ⟨none, none⟩ (str ("p"))
      (str ("https://e.com/a.jpg"))
      ⟨none, none, some (str ("jpeg")), none, none, none, none⟩ _ [] 0).1 rfl
  · exact (c7_error_propagation ⟨none, none⟩ (str ("p"))
      (str ("https://e.com/a.jpg"))
      ⟨none, none, none, none, none, none, some (JNum.int (-5))⟩
      (JsError.jsError []) _ (-5)).2 rfl rfl (by omega) rfl (by simp)
